import Mathlib

/-!
Verification of the bidirectional JSON reconciliation engine of the
general-settings-ui repository.

The TypeScript source is shallowly embedded: JSON document values become the
inductive type `Json`, the webview ("Form Replica") class fields become the
record `AppState`, the extension-host ("Document Owner") per-binding state
becomes explicit records, and the DOM that the webview reads its control
values from becomes the record `FormState` (the source treats the DOM as its
state store; `FormState` is exactly the collection of queries the source
performs against it).  JavaScript numbers are modelled as exact rationals
(`Rat`); JavaScript `undefined` results become `Option`.
-/

/-- A JSON document value.  Objects are modelled as insertion-ordered
association lists, matching JavaScript object key order; JavaScript numbers
are modelled as exact rationals. -/
inductive Json where
  | null : Json
  | bool : Bool → Json
  | num : Rat → Json
  | str : String → Json
  | arr : List Json → Json
  | obj : List (String × Json) → Json
deriving Repr

mutual

/-- Structural equality test on `Json` (used to derive decidable equality;
the nested inductive prevents `deriving DecidableEq`). -/
def Json.beq : Json → Json → Bool
  | .null, .null => true
  | .bool a, .bool b => a == b
  | .num a, .num b => a == b
  | .str a, .str b => a == b
  | .arr a, .arr b => Json.beqList a b
  | .obj a, .obj b => Json.beqFields a b
  | _, _ => false

def Json.beqList : List Json → List Json → Bool
  | x :: xs, y :: ys => Json.beq x y && Json.beqList xs ys
  | [], [] => true
  | _, _ => false

def Json.beqFields : List (String × Json) → List (String × Json) → Bool
  | [], [] => true
  | (k, v) :: xs, (k', v') :: ys => k == k' && Json.beq v v' && Json.beqFields xs ys
  | _, _ => false

end

mutual

theorem Json.beq_iff : ∀ (a b : Json), Json.beq a b = true ↔ a = b
  | .null, b => by cases b <;> simp [Json.beq]
  | .bool a, b => by cases b <;> simp [Json.beq]
  | .num a, b => by cases b <;> simp [Json.beq]
  | .str a, b => by cases b <;> simp [Json.beq]
  | .arr a, b => by
      cases b <;> simp [Json.beq]
      exact Json.beqList_iff a _
  | .obj a, b => by
      cases b <;> simp [Json.beq]
      exact Json.beqFields_iff a _

theorem Json.beqList_iff : ∀ (a b : List Json), Json.beqList a b = true ↔ a = b
  | [], b => by cases b <;> simp [Json.beqList]
  | x :: xs, [] => by simp [Json.beqList]
  | x :: xs, y :: ys => by
      simp [Json.beqList, Json.beq_iff x y, Json.beqList_iff xs ys]

theorem Json.beqFields_iff : ∀ (a b : List (String × Json)), Json.beqFields a b = true ↔ a = b
  | [], b => by cases b <;> simp [Json.beqFields]
  | x :: xs, [] => by simp [Json.beqFields]
  | (k, v) :: xs, (k', v') :: ys => by
      simp [Json.beqFields, Json.beq_iff v v', Json.beqFields_iff xs ys]

end

instance : DecidableEq Json := fun a b =>
  decidable_of_iff (Json.beq a b = true) (Json.beq_iff a b)

/-- JavaScript truthiness of a JSON value: `null`, `false`, `0` and the empty
string are falsy. -/
def jsFalsy : Json → Bool
  | .null => true
  | .bool b => !b
  | .num q => q == 0
  | .str s => s == ""
  | .arr _ => false
  | .obj _ => false

/-- JS `String.prototype.split` on a single-character separator
(kernel-computable; `"a//b".split("/") = ["a","","b"]`). -/
def jsSplitAux (sep : Char) : List Char → List Char → List (List Char)
  | [], acc => [acc.reverse]
  | c :: rest, acc =>
    if c = sep then acc.reverse :: jsSplitAux sep rest []
    else jsSplitAux sep rest (c :: acc)

def jsSplit (sep : Char) (s : String) : List String :=
  (jsSplitAux sep s.toList []).map String.mk

/-- JS `String.prototype.replace` with a global literal pattern:
left-to-right, non-overlapping, resuming after each replacement.  The fuel
is structural (one unit per consumed character, so the length always
suffices). -/
def jsReplaceAux (pat rep : List Char) : Nat → List Char → List Char
  | 0, l => l
  | _ + 1, [] => []
  | fuel + 1, c :: rest =>
    if pat ≠ [] && List.isPrefixOf pat (c :: rest) then
      rep ++ jsReplaceAux pat rep fuel ((c :: rest).drop pat.length)
    else c :: jsReplaceAux pat rep fuel rest

def jsReplaceAll (pat rep s : String) : String :=
  String.mk (jsReplaceAux pat.toList rep.toList (s.toList.length + 1) s.toList)

/-- The character class of the JS regex `\s` (also what `trim`, `parseInt`
and `parseFloat` strip). -/
def jsRegexWs (c : Char) : Bool :=
  c = ' ' || c = '\t' || c = '\n' || c = '\r' || c = '\x0b' || c = '\x0c' ||
  c = '\u00a0' || c = '\u1680' ||
  ('\u2000' ≤ c && c ≤ '\u200a') ||
  c = '\u2028' || c = '\u2029' || c = '\u202f' || c = '\u205f' ||
  c = '\u3000' || c = '\ufeff'

/-- JS `String.prototype.trim`. -/
def jsTrim (s : String) : String :=
  String.mk (((s.toList.dropWhile jsRegexWs).reverse.dropWhile jsRegexWs).reverse)

/-- JS `String.prototype.startsWith`. -/
def jsStartsWith (s pre : String) : Bool :=
  List.isPrefixOf pre.toList s.toList

/-- JS `String.prototype.slice(n)` (string positions modelled as character
counts; every string these claims touch is ASCII, where the two agree). -/
def jsDropChars (s : String) (n : Nat) : String :=
  String.mk (s.toList.drop n)

/-- JS `String.prototype.length` as a character count (see
`jsDropChars`). -/
def jsLenChars (s : String) : Nat :=
  s.toList.length

def digitsToNatAux (acc : Nat) : List Char → Nat
  | [] => acc
  | c :: cs => digitsToNatAux (10 * acc + (c.toNat - 0x30)) cs

def digitsToNat (ds : List Char) : Nat :=
  digitsToNatAux 0 ds

/-- A parsed pointer segment: either an object key or an array index
(`parsePointer` turns every all-digit segment into an index). -/
inductive Seg where
  | str (s : String)
  | idx (n : Nat)
deriving Repr, DecidableEq

/-- Source `/^\d+$/.test(s)`: non-empty and all decimal digits. -/
def isAllDigits (s : String) : Bool :=
  s ≠ "" && s.toList.all Char.isDigit

/-- Source segment decoding: `seg.replace(/~1/g, "/").replace(/~0/g, "~")`. -/
def decodeSegment (seg : String) : String :=
  jsReplaceAll "~0" "~" (jsReplaceAll "~1" "/" seg)

/-- Source `parsePointer` (webview): strip one leading slash, return `[]` for
the empty remainder, split on `/`, decode `~1` then `~0` within each piece,
and convert any all-digit piece to a numeric index.  (`Number(decoded)` on an
all-digit string is its decimal value; the double-precision rounding JS
applies to 300+-digit strings is not modelled.) -/
def parsePointer (pointer : String) : List Seg :=
  let raw := if jsStartsWith pointer "/" then jsDropChars pointer 1 else pointer
  if raw = "" then []
  else
    (jsSplit '/' raw).map fun seg =>
      let decoded := decodeSegment seg
      if isAllDigits decoded then .idx (digitsToNat decoded.toList)
      else .str decoded

/-- Source `encodeJsonPointerSegment`: `~` to `~0` then `/` to `~1`. -/
def encodeJsonPointerSegment (seg : String) : String :=
  jsReplaceAll "/" "~1" (jsReplaceAll "~" "~0" seg)

/-- JS property read `cur[part]`.  Numeric parts are coerced to string keys on
objects; string parts on arrays and any part on a primitive read as
`undefined` (`none`).  (JS string-index access into primitive strings is not
modelled; no pointer produced by the engine addresses into a scalar.) -/
def jsIndex : Json → Seg → Option Json
  | .obj fields, .str k => (fields.find? (fun kv => kv.1 = k)).map (·.2)
  | .obj fields, .idx n => (fields.find? (fun kv => kv.1 = toString n)).map (·.2)
  | .arr xs, .idx n => xs.get? n
  | _, _ => none

/-- `base?.[k]` on a possibly-`undefined` base. -/
def jsIndexOpt (base : Option Json) (s : Seg) : Option Json :=
  base.bind (fun j => jsIndex j s)

/-- JS property write `obj[k] = v` on an object: update in place if the key
exists (preserving its position), otherwise append. -/
def objSet (fields : List (String × Json)) (k : String) (v : Json) : List (String × Json) :=
  if fields.any (fun kv => kv.1 = k) then
    fields.map (fun kv => if kv.1 = k then (k, v) else kv)
  else fields ++ [(k, v)]

/-- JS `delete obj[k]`. -/
def objDelete (fields : List (String × Json)) (k : String) : List (String × Json) :=
  fields.filter (fun kv => kv.1 ≠ k)

/-- JS element write `arr[n] = v`: assign in range, append at the length, and
fill the gap with holes beyond it (holes serialize as `null`). -/
def arrSet (xs : List Json) (n : Nat) (v : Json) : List Json :=
  if n < xs.length then xs.set n v
  else xs ++ List.replicate (n - xs.length) Json.null ++ [v]

/-- JS property write `cur[part] = v`.  Returns `none` where JS (strict mode)
throws a `TypeError`: assignment onto `null` or onto a primitive. -/
def jsAssign : Json → Seg → Json → Option Json
  | .obj fields, .str k, v => some (.obj (objSet fields k v))
  | .obj fields, .idx n, v => some (.obj (objSet fields (toString n) v))
  | .arr xs, .idx n, v => some (.arr (arrSet xs n v))
  | .arr xs, .str _, _ => some (.arr xs)
  | _, _, _ => none

/-- Source `getValueAtPointer`: walk the parsed segments, returning
`undefined` (`none`) as soon as the walk leaves the document. -/
def getValueAtPointer (root : Json) (pointer : String) : Option Json :=
  go root (parsePointer pointer)
where
  go : Json → List Seg → Option Json
    | cur, [] => some cur
    | cur, part :: rest =>
      match jsIndex cur part with
      | none => none
      | some nxt => go nxt rest

/-- The container materialised by source `setValueAtPointer` for a missing
intermediate step: the ternary `typeof parts[i+1] === "number" ? [] : \x7b\x7d`
(an array when the NEXT segment is numeric, an empty object otherwise). -/
def childDefault : Seg → Json
  | .idx _ => Json.arr []
  | .str _ => Json.obj []

/-- One step of the source `setValueAtPointer` walk: read `cur[part]`,
materialising `childDefault next` when it is `undefined`, recurse, and write
the rebuilt child back.  `none` models the `TypeError` JS throws when the
walk runs into a primitive or `null`. -/
def setSegs : Json → List Seg → Json → Option Json
  | cur, [part], v => jsAssign cur part v
  | cur, part :: next :: rest, v =>
    let child :=
      match jsIndex cur part with
      | some c => c
      | none => childDefault next
    match setSegs child (next :: rest) v with
    | none => none
    | some child' => jsAssign cur part child'
  | cur, [], _ => some cur

/-- Source `setValueAtPointer` (functional: returns the mutated root, `none`
when JS would throw). -/
def setValueAtPointer (root : Json) (pointer : String) (v : Json) : Option Json :=
  match parsePointer pointer with
  | [] => some root
  | parts => setSegs root parts v

/-- Source `deleteValueAtPointer`: walk to the parent (returning early on a
missing step), then splice out a numeric index from an array or `delete` the
key from an object; primitives are guarded (`typeof cur !== "object"`). -/
def deleteSegs : Json → List Seg → Json
  | cur, [] => cur
  | cur, [last] =>
    match cur, last with
    | .arr xs, .idx n => .arr (xs.take n ++ xs.drop (n + 1))
    | .arr xs, .str _ => .arr xs
    | .obj fields, .str k => .obj (objDelete fields k)
    | .obj fields, .idx n => .obj (objDelete fields (toString n))
    | c, _ => c
  | cur, part :: rest =>
    match jsIndex cur part with
    | none => cur
    | some child =>
      let child' := deleteSegs child rest
      match jsAssign cur part child' with
      | some cur' => cur'
      | none => cur

/-- Source `deleteValueAtPointer` on a pointer string. -/
def deleteValueAtPointer (root : Json) (pointer : String) : Json :=
  match parsePointer pointer with
  | [] => root
  | parts => deleteSegs root parts

/-- The object key a segment denotes: JS coerces numeric parts to their
decimal string when used as property keys. -/
def segKey : Seg → String
  | .str s => s
  | .idx n => toString n

/-- Two pointer segments that provably address disjoint children of any
container: distinct object keys (numeric parts compared through their key
coercion).  Two distinct array indices are NOT disjoint in this sense,
because an array splice or an out-of-range assignment at one index moves or
pads the other. -/
def segDiverges : Seg → Seg → Bool
  | .str a, .str b => a ≠ b
  | .str a, .idx n => a ≠ toString n
  | .idx n, .str b => toString n ≠ b
  | .idx _, .idx _ => false

/-- Two parsed pointers whose operations cannot interact: they agree on a
(possibly empty) common prefix and then diverge on segments with distinct
key coercions.  Neither pointer may be a prefix of the other. -/
def pathsIndependent : List Seg → List Seg → Bool
  | a :: as, b :: bs => segDiverges a b || (decide (a = b) && pathsIndependent as bs)
  | _, _ => false

/-- Source `cloneJson`: `JSON.parse(JSON.stringify(value ?? \x7b\x7d))`.  On a
`Json` value (which has no `undefined` members) the round-trip is the
identity, except that a top-level `null` becomes the empty object through the
`?? \x7b\x7d` default. -/
def cloneJson : Json → Json
  | .null => .obj []
  | v => v

/-- Is this value an empty object (`typeof === "object"`, not an array, zero
keys)? -/
def isEmptyObj : Json → Bool
  | .obj [] => true
  | _ => false

/-- The deletion test of source `pruneEmptyObjects`:
`baseChild === undefined || (baseChild && typeof baseChild === "object" &&
Object.keys(baseChild).length === 0)`.  `Object.keys` of an empty array is
also empty, so an empty-array base child satisfies the second disjunct. -/
def pruneDrops (baseChild : Option Json) : Bool :=
  match baseChild with
  | none => true
  | some (.obj []) => true
  | some (.arr []) => true
  | _ => false

mutual

/-- Source `pruneEmptyObjects(node, base)`: primitives pass through, arrays
recurse element-wise against `base?.[i]`, and objects recurse per key, then
delete the key when the pruned child is an empty object and `pruneDrops`
holds for the base child. -/
def pruneEmptyObjects : Json → Option Json → Json
  | .null, _ => .null
  | .bool b, _ => .bool b
  | .num q, _ => .num q
  | .str s, _ => .str s
  | .arr xs, base => .arr (pruneList xs base 0)
  | .obj fields, base => .obj (pruneFields fields base)

def pruneList : List Json → Option Json → Nat → List Json
  | [], _, _ => []
  | v :: vs, base, i =>
    pruneEmptyObjects v (jsIndexOpt base (.idx i)) :: pruneList vs base (i + 1)

def pruneFields : List (String × Json) → Option Json → List (String × Json)
  | [], _ => []
  | (k, v) :: rest, base =>
    let baseChild := jsIndexOpt base (.str k)
    let child := pruneEmptyObjects v baseChild
    if isEmptyObj child && pruneDrops baseChild then pruneFields rest base
    else (k, child) :: pruneFields rest base

end

mutual

/-- A value the prune pass can never alter, against ANY base: no object
field anywhere inside it binds an empty object.  (Empty objects inside
arrays are harmless — array elements are never deleted.) -/
def pruneInert : Json → Bool
  | .arr xs => pruneInertList xs
  | .obj fs => pruneInertFields fs
  | _ => true

def pruneInertList : List Json → Bool
  | [] => true
  | x :: xs => pruneInert x && pruneInertList xs

def pruneInertFields : List (String × Json) → Bool
  | [] => true
  | (_, v) :: fs => !(isEmptyObj v) && pruneInert v && pruneInertFields fs

end

/-- JSON string quoting as `JSON.stringify` performs it: `"` and `\` escaped,
control characters as their short escapes or `\u00XX`. -/
def quoteJsonChar (c : Char) : String :=
  if c = '"' then "\\\""
  else if c = '\\' then "\\\\"
  else if c = '\x08' then "\\b"
  else if c = '\x0c' then "\\f"
  else if c = '\n' then "\\n"
  else if c = '\r' then "\\r"
  else if c = '\t' then "\\t"
  else if c.toNat < 0x20 then
    "\\u00" ++ String.mk [Nat.digitChar (c.toNat / 16), Nat.digitChar (c.toNat % 16)]
  else String.singleton c

/-- `JSON.stringify` of a string value. -/
def quoteJsonString (s : String) : String :=
  "\"" ++ String.join (s.toList.map quoteJsonChar) ++ "\""

/-- Serialization of a number.  JavaScript prints doubles; this model prints
the exact rational (integers identically to JS; non-integral rationals as
`num/den`, a representation choice — every number handled by the claims in
this file is integral). -/
def numToString (q : Rat) : String :=
  if q.den = 1 then toString q.num
  else toString q.num ++ "/" ++ toString q.den

mutual

/-- Compact `JSON.stringify(v)` (no indent), as used by `handleFormChange`
for its change test. -/
def stringifyJson : Json → String
  | .null => "null"
  | .bool b => if b then "true" else "false"
  | .num q => numToString q
  | .str s => quoteJsonString s
  | .arr xs => "[" ++ stringifyList xs ++ "]"
  | .obj fields => "\x7b" ++ stringifyFields fields ++ "\x7d"

def stringifyList : List Json → String
  | [] => ""
  | [x] => stringifyJson x
  | x :: xs => stringifyJson x ++ "," ++ stringifyList xs

def stringifyFields : List (String × Json) → String
  | [] => ""
  | [(k, v)] => quoteJsonString k ++ ":" ++ stringifyJson v
  | (k, v) :: fs => quoteJsonString k ++ ":" ++ stringifyJson v ++ "," ++ stringifyFields fs

end

mutual

/-- `JSON.stringify(v, null, 2)` — the pretty form sent in `updateJson`
envelopes.  `ind` is the indentation of the enclosing value. -/
def stringifyPretty : Json → String → String
  | .null, _ => "null"
  | .bool b, _ => if b then "true" else "false"
  | .num q, _ => numToString q
  | .str s, _ => quoteJsonString s
  | .arr [], _ => "[]"
  | .arr (x :: xs), ind =>
      "[\n" ++ prettyList (x :: xs) (ind ++ "  ") ++ "\n" ++ ind ++ "]"
  | .obj [], _ => "\x7b\x7d"
  | .obj (f :: fs), ind =>
      "\x7b\n" ++ prettyFields (f :: fs) (ind ++ "  ") ++ "\n" ++ ind ++ "\x7d"

def prettyList : List Json → String → String
  | [], _ => ""
  | [x], ind => ind ++ stringifyPretty x ind
  | x :: xs, ind => ind ++ stringifyPretty x ind ++ ",\n" ++ prettyList xs ind

def prettyFields : List (String × Json) → String → String
  | [], _ => ""
  | [(k, v)], ind => ind ++ quoteJsonString k ++ ": " ++ stringifyPretty v ind
  | (k, v) :: fs, ind =>
      ind ++ quoteJsonString k ++ ": " ++ stringifyPretty v ind ++ ",\n" ++ prettyFields fs ind

end

/-- Insertion sort of strings (JS `Array.prototype.sort()` on string keys:
code-unit lexicographic order, which Lean's `String` order matches for the
code points appearing here). -/
def insertStr (x : String) : List String → List String
  | [] => [x]
  | y :: ys => if x ≤ y then x :: y :: ys else y :: insertStr x ys

def sortStrings : List String → List String
  | [] => []
  | x :: xs => insertStr x (sortStrings xs)

/-- Source `deepEqualJson`, via a structural fuel argument (one unit per
nesting level, so any fuel above the depth of the first argument computes the
same answer): primitives by value, arrays element-wise, objects by comparing
sorted key lists and then the value at each key. -/
def deepEqualFuel : Nat → Json → Json → Bool
  | 0, _, _ => false
  | fuel + 1, a, b =>
    match a, b with
    | .null, .null => true
    | .bool x, .bool y => x == y
    | .num x, .num y => x == y
    | .str x, .str y => x == y
    | .arr xs, .arr ys =>
      xs.length == ys.length &&
        (List.zip xs ys).all (fun p => deepEqualFuel fuel p.1 p.2)
    | .obj fa, .obj fb =>
      let aKeys := sortStrings (fa.map (fun kv => kv.1))
      let bKeys := sortStrings (fb.map (fun kv => kv.1))
      aKeys == bKeys &&
        aKeys.all (fun k =>
          match jsIndex (.obj fa) (.str k), jsIndex (.obj fb) (.str k) with
          | some va, some vb => deepEqualFuel fuel va vb
          | none, none => true
          | _, _ => false)
    | _, _ => false

mutual

/-- Nesting depth of a JSON value (fuel bound for `deepEqualJson`). -/
def Json.depth : Json → Nat
  | .arr xs => Json.depthList xs + 1
  | .obj fs => Json.depthFields fs + 1
  | _ => 1

def Json.depthList : List Json → Nat
  | [] => 0
  | x :: xs => max (Json.depth x) (Json.depthList xs)

def Json.depthFields : List (String × Json) → Nat
  | [] => 0
  | (_, v) :: fs => max (Json.depth v) (Json.depthFields fs)

end

/-- Source `deepEqualJson`.  `Json.depth a` bounds the recursion depth, so
the fuel never runs out. -/
def deepEqualJson (a b : Json) : Bool :=
  deepEqualFuel (Json.depth a + 1) a b

/-- JSON grammar whitespace (the only characters `JSON.parse` skips). -/
def jsonWs (c : Char) : Bool :=
  c = ' ' || c = '\t' || c = '\n' || c = '\r'

def skipJsonWs (cs : List Char) : List Char :=
  cs.dropWhile jsonWs

/-- The rational `n / 1`, built without normalisation (so that the kernel
can evaluate parses of integer literals; `Nat.gcd`, which `Rat` arithmetic
calls, is defined by well-founded recursion and does not reduce). -/
def intToRat (n : Int) : Rat :=
  ⟨n, 1, one_ne_zero, Nat.coprime_one_right _⟩

/-- The exact value `digits(intD ++ fracD) * 10 ^ (e - |fracD|)` of a
decimal literal with integer digits `intD`, fraction digits `fracD` and
exponent `e`. -/
def decimalToRat (intD fracD : List Char) (e : Int) : Rat :=
  let m : Nat := digitsToNat (intD ++ fracD)
  let e2 : Int := e - fracD.length
  if 0 ≤ e2 then intToRat (m * 10 ^ e2.toNat)
  else mkRat m (10 ^ (-e2).toNat)

def hexDigitToNat (c : Char) : Option Nat :=
  let n := c.toNat
  if 0x30 ≤ n && n ≤ 0x39 then some (n - 0x30)
  else if 0x61 ≤ n && n ≤ 0x66 then some (n - 0x57)
  else if 0x41 ≤ n && n ≤ 0x46 then some (n - 0x37)
  else none

/-- The body of a JSON string literal (after the opening quote): plain
characters, short escapes, and `\uXXXX` escapes, with surrogate pairs
combined.  (JS permits lone surrogates inside strings; Lean strings cannot
hold them, so a lone surrogate is parsed as `Char.ofNat`'s fallback — no
input in this file uses `\u` escapes at all.) -/
def parseJsonStringBodyF : Nat → List Char → Option (List Char × List Char)
  | 0, _ => none
  | _ + 1, [] => none
  | _ + 1, '"' :: rest => some ([], rest)
  | fuel + 1, '\\' :: 'u' :: h1 :: h2 :: h3 :: h4 :: rest =>
    match hexDigitToNat h1, hexDigitToNat h2, hexDigitToNat h3, hexDigitToNat h4 with
    | some a, some b, some c, some d =>
      let n := ((a * 16 + b) * 16 + c) * 16 + d
      if 0xD800 ≤ n && n ≤ 0xDBFF then
        match rest with
        | '\\' :: 'u' :: g1 :: g2 :: g3 :: g4 :: rest2 =>
          match hexDigitToNat g1, hexDigitToNat g2, hexDigitToNat g3, hexDigitToNat g4 with
          | some a2, some b2, some c2, some d2 =>
            let m := ((a2 * 16 + b2) * 16 + c2) * 16 + d2
            if 0xDC00 ≤ m && m ≤ 0xDFFF then
              let cp := 0x10000 + (n - 0xD800) * 0x400 + (m - 0xDC00)
              (parseJsonStringBodyF fuel rest2).map (fun p => (Char.ofNat cp :: p.1, p.2))
            else (parseJsonStringBodyF fuel rest).map (fun p => (Char.ofNat n :: p.1, p.2))
          | _, _, _, _ => (parseJsonStringBodyF fuel rest).map (fun p => (Char.ofNat n :: p.1, p.2))
        | _ => (parseJsonStringBodyF fuel rest).map (fun p => (Char.ofNat n :: p.1, p.2))
      else (parseJsonStringBodyF fuel rest).map (fun p => (Char.ofNat n :: p.1, p.2))
    | _, _, _, _ => none
  | fuel + 1, '\\' :: e :: rest =>
    let esc : Option Char :=
      if e = '"' then some '"'
      else if e = '\\' then some '\\'
      else if e = '/' then some '/'
      else if e = 'b' then some '\x08'
      else if e = 'f' then some '\x0c'
      else if e = 'n' then some '\n'
      else if e = 'r' then some '\r'
      else if e = 't' then some '\t'
      else none
    match esc with
    | some c => (parseJsonStringBodyF fuel rest).map (fun p => (c :: p.1, p.2))
    | none => none
  | fuel + 1, c :: rest =>
    if c.toNat < 0x20 then none
    else (parseJsonStringBodyF fuel rest).map (fun p => (c :: p.1, p.2))

/-- The body of a JSON string literal, with the fuel instantiated (one unit
per character, so the length always suffices). -/
def parseJsonStringBody (cs : List Char) : Option (List Char × List Char) :=
  parseJsonStringBodyF (cs.length + 1) cs

/-- A JSON number literal per the JSON grammar:
`-? (0 | [1-9][0-9]*) (. [0-9]+)? ([eE] [+-]? [0-9]+)?`, valued exactly. -/
def parseJsonNumber (cs : List Char) : Option (Rat × List Char) :=
  let (neg, cs1) :=
    match cs with
    | '-' :: rest => (true, rest)
    | _ => (false, cs)
  let intD := cs1.takeWhile Char.isDigit
  let cs2 := cs1.dropWhile Char.isDigit
  if intD = [] then none
  else if intD.length > 1 && intD.headD '0' = '0' then none
  else
    let (fracD, cs3) :=
      match cs2 with
      | '.' :: rest =>
        (rest.takeWhile Char.isDigit, rest.dropWhile Char.isDigit)
      | _ => ([], cs2)
    if cs2 ≠ cs3 && fracD = [] then none
    else
      let parseExp : Option (Int × List Char) :=
        match cs3 with
        | 'e' :: rest | 'E' :: rest =>
          let (esign, rest1) :=
            match rest with
            | '-' :: r => ((-1 : Int), r)
            | '+' :: r => ((1 : Int), r)
            | _ => ((1 : Int), rest)
          let expD := rest1.takeWhile Char.isDigit
          if expD = [] then none
          else some (esign * (digitsToNat expD : Int), rest1.dropWhile Char.isDigit)
        | _ => none
      let (e, cs4) :=
        match parseExp with
        | some (e, rest) => (e, rest)
        | none =>
          match cs3 with
          | 'e' :: _ => ((0 : Int), cs3)
          | 'E' :: _ => ((0 : Int), cs3)
          | _ => ((0 : Int), cs3)
      match parseExp, cs3 with
      | none, 'e' :: _ => none
      | none, 'E' :: _ => none
      | _, _ =>
        let v := decimalToRat intD fracD e
        some ((if neg then -v else v), cs4)

mutual

/-- `JSON.parse` value parser over a structural fuel (one unit per grammar
recursion; any fuel above the input length suffices).  The input must start
at the value (whitespace already skipped). -/
def parseJsonValue : Nat → List Char → Option (Json × List Char)
  | 0, _ => none
  | _ + 1, 't' :: 'r' :: 'u' :: 'e' :: rest => some (.bool true, rest)
  | _ + 1, 'f' :: cs =>
    match cs with
    | 'a' :: 'l' :: 's' :: 'e' :: rest => some (.bool false, rest)
    | _ => none
  | _ + 1, 'n' :: 'u' :: 'l' :: 'l' :: rest => some (.null, rest)
  | _ + 1, '"' :: rest =>
    (parseJsonStringBody rest).map (fun p => (.str (String.mk p.1), p.2))
  | fuel + 1, '[' :: rest =>
    let rest1 := skipJsonWs rest
    match rest1 with
    | ']' :: rest2 => some (.arr [], rest2)
    | _ =>
      match parseJsonElems fuel rest1 with
      | some (xs, rest2) => some (.arr xs, rest2)
      | none => none
  | fuel + 1, '\x7b' :: rest =>
    let rest1 := skipJsonWs rest
    match rest1 with
    | '\x7d' :: rest2 => some (.obj [], rest2)
    | _ =>
      match parseJsonMembers fuel [] rest1 with
      | some (fields, rest2) => some (.obj fields, rest2)
      | none => none
  | _ + 1, cs =>
    match parseJsonNumber cs with
    | some (q, rest) => some (.num q, rest)
    | none => none

/-- One or more comma-separated array elements, then `]`. -/
def parseJsonElems : Nat → List Char → Option (List Json × List Char)
  | 0, _ => none
  | fuel + 1, cs =>
    match parseJsonValue fuel cs with
    | none => none
    | some (v, rest) =>
      match skipJsonWs rest with
      | ',' :: rest1 =>
        match parseJsonElems fuel (skipJsonWs rest1) with
        | some (vs, rest2) => some (v :: vs, rest2)
        | none => none
      | ']' :: rest1 => some ([v], rest1)
      | _ => none

/-- One or more `"key": value` members, then the closing brace, accumulated
left to right so insertion order is preserved.  A duplicate key overwrites
the earlier value in place (keeping the first occurrence's position), so
the LAST duplicate wins, as JS property assignment does. -/
def parseJsonMembers : Nat → List (String × Json) → List Char →
    Option (List (String × Json) × List Char)
  | 0, _, _ => none
  | fuel + 1, acc, cs =>
    match cs with
    | '"' :: rest =>
      match parseJsonStringBody rest with
      | none => none
      | some (kcs, rest1) =>
        match skipJsonWs rest1 with
        | ':' :: rest2 =>
          match parseJsonValue fuel (skipJsonWs rest2) with
          | none => none
          | some (v, rest3) =>
            match skipJsonWs rest3 with
            | ',' :: rest4 => parseJsonMembers fuel (objSet acc (String.mk kcs) v) (skipJsonWs rest4)
            | '\x7d' :: rest4 => some (objSet acc (String.mk kcs) v, rest4)
            | _ => none
        | _ => none
    | _ => none

end

/-- `JSON.parse`, returning `none` where it throws. -/
def jsonParse (s : String) : Option Json :=
  match parseJsonValue (s.length + 1) (skipJsonWs s.toList) with
  | some (v, rest) => if skipJsonWs rest = [] then some v else none
  | none => none

/-- The regex replacement `content.replace(/,\s*([\x7d\]])/g, "$1")` of the
owner's `_parseJsonWithTrailingCammas`: scanning left to right, a comma
followed by optional `\s` whitespace and a closing brace or bracket is
deleted (the bracket kept), and scanning resumes after the bracket.  The
fuel is structural (one unit per consumed character, so the length always
suffices). -/
def cleanAux : Nat → List Char → List Char
  | 0, l => l
  | _ + 1, [] => []
  | fuel + 1, c :: rest =>
    if c = ',' then
      match rest.dropWhile jsRegexWs with
      | br :: rest2 =>
        if br = '\x7d' || br = ']' then br :: cleanAux fuel rest2
        else c :: cleanAux fuel rest
      | [] => c :: cleanAux fuel rest
    else c :: cleanAux fuel rest

def cleanTrailingCommas (content : String) : String :=
  String.mk (cleanAux (content.length + 1) content.toList)

/-- Source `_parseJsonWithTrailingCammas` (Document Owner): delete the
comma-before-bracket sequences from the raw text, then `JSON.parse` the
result (`none` where it throws). -/
def parseJsonWithTrailingCommas (content : String) : Option Json :=
  jsonParse (cleanTrailingCommas content)

/-- Source `safeParseJsonText` (webview): non-strings and blank strings give
`undefined`; otherwise `JSON.parse` with exceptions swallowed. -/
def safeParseJsonText (text : Option String) : Option Json :=
  match text with
  | none => none
  | some t => if jsTrim t = "" then none else jsonParse t

/-- The result of a JS number-producing parse: a double is either finite,
`NaN`, or an infinity.  Finite values are modelled exactly as rationals
(double rounding, under which enormous decimal literals overflow to
infinity, is not modelled; the `Number.isFinite` guards below accept the
exact value instead, which never lets a non-finite value through either
way). -/
inductive JsNum where
  | finite (q : Rat)
  | nan
  | posInf
  | negInf
deriving Repr, DecidableEq

/-- `parseInt(s, 10)`: skip whitespace, optional sign, then the longest
prefix of decimal digits; `NaN` when there is none. -/
def jsParseInt (s : String) : JsNum :=
  let cs := s.toList.dropWhile jsRegexWs
  let (neg, cs1) :=
    match cs with
    | '-' :: rest => (true, rest)
    | '+' :: rest => (false, rest)
    | _ => (false, cs)
  let digits := cs1.takeWhile Char.isDigit
  if digits = [] then .nan
  else .finite (if neg then -intToRat (digitsToNat digits) else intToRat (digitsToNat digits))

/-- `parseFloat(s)`: skip whitespace, optional sign, then the longest prefix
matching `Infinity`, or `digits [. digits] [exponent]`, or `. digits
[exponent]`; `NaN` when no digits (and no `Infinity`) are found.  An `e`
not followed by digits is not consumed. -/
def jsParseFloat (s : String) : JsNum :=
  let cs := s.toList.dropWhile jsRegexWs
  let (neg, cs1) :=
    match cs with
    | '-' :: rest => (true, rest)
    | '+' :: rest => (false, rest)
    | _ => (false, cs)
  if cs1.take 8 = "Infinity".toList then
    if neg then .negInf else .posInf
  else
    let intD := cs1.takeWhile Char.isDigit
    let cs2 := cs1.dropWhile Char.isDigit
    let (fracD, cs3) :=
      match cs2 with
      | '.' :: rest => (rest.takeWhile Char.isDigit, rest.dropWhile Char.isDigit)
      | _ => ([], cs2)
    if intD = [] && fracD = [] then .nan
    else
      let e : Int :=
        match cs3 with
        | 'e' :: rest | 'E' :: rest =>
          let (esign, rest1) :=
            match rest with
            | '-' :: r => ((-1 : Int), r)
            | '+' :: r => ((1 : Int), r)
            | _ => ((1 : Int), rest)
          let expD := rest1.takeWhile Char.isDigit
          if expD = [] then 0 else esign * (digitsToNat expD : Int)
        | _ => 0
      let v := decimalToRat intD fracD e
      .finite (if neg then -v else v)

/-- A form control as the webview reads it from the DOM: the attributes and
properties consulted by `readControlValue` and
`isControlInInvalidEditState`.  `constVal` is the parsed `data-const`
attribute (the source applies `JSON.parse` with a fallback to the raw
string, so the parsed form is always a JSON value); `typeAttr` is `none`
when the element has no `data-type` attribute. -/
structure Control where
  anyofInactive : Bool
  constVal : Option Json
  disabled : Bool
  typeAttr : Option String
  value : String
  checked : Bool
  mapRoleValue : Bool
  validityValid : Bool

/-- Source `readControlValue`: inactive `anyOf` variants and (non-const)
disabled controls read as unset; a `data-const` control always yields its
constant; booleans read `checked`; map-role string values keep the raw
(untrimmed, possibly empty) text; numeric types parse the trimmed text and
are kept only when `Number.isFinite` holds; `array` splits on commas; all
other types yield the trimmed text when non-empty. -/
def readControlValue (c : Control) : Option Json :=
  if c.anyofInactive then none
  else
    match c.constVal with
    | some v => some v
    | none =>
      if c.disabled then none
      else if c.typeAttr = some "boolean" then some (.bool c.checked)
      else
        let raw := c.value
        if (c.typeAttr = some "string" || c.typeAttr = some "enum") && c.mapRoleValue then
          some (.str raw)
        else
          let str := jsTrim raw
          if c.typeAttr = some "number" || c.typeAttr = some "integer" then
            if str = "" then none
            else
              match (if c.typeAttr = some "integer" then jsParseInt str else jsParseFloat str) with
              | .finite q => some (.num q)
              | _ => none
          else if c.typeAttr = some "array" then
            if str = "" then none
            else
              let parts := ((jsSplit ',' str).map jsTrim).filter (· ≠ "")
              if parts ≠ [] then some (.arr (parts.map Json.str)) else none
          else if str ≠ "" then some (.str str)
          else none

/-- Source `isControlInInvalidEditState`: a control in an inactive `anyOf`
variant or disabled is never "invalid"; otherwise it is invalid exactly when
it holds non-blank text that fails its DOM validity state. -/
def isControlInInvalidEditState (c : Control) : Bool :=
  if c.anyofInactive then false
  else if c.disabled then false
  else jsTrim c.value ≠ "" && !c.validityValid

/-- One `.array-item` element: its `data-array-index` attribute and its
descendant elements carrying `data-path`, in document order. -/
structure ArrayItem where
  indexStr : String
  controls : List (String × Control)

/-- One `.map-item` element: the value of its `.map-key-input` (`none` when
that input is missing) and its descendant `data-path` elements. -/
structure MapItem where
  keyRaw : Option String
  controls : List (String × Control)

/-- One `.map-object` element.  `keyTest` is the compiled
`data-map-key-pattern` as a whole-string predicate (`none` when the
attribute is absent or the regex fails to compile — the source anchors an
unanchored pattern before testing, which the predicate absorbs);
`itemsContainerPresent` models the `map-items-…` container lookup. -/
structure MapObject where
  keyTest : Option (String → Bool)
  itemsContainerPresent : Bool
  items : List MapItem

/-- The DOM as the reconciliation engine queries it.  `leafControl p` is the
first `input/select/textarea` with `data-path = p` and a `data-type`;
`arrays p` is the `.array-object` with `data-array-path = p` (with its item
list; `none` doubles for the missing-element and missing-container early
returns, all of which the source treats as the empty collection); `maps p`
is the `.map-object` with `data-map-path = p`. -/
structure FormState where
  leafControl : String → Option Control
  arrays : String → Option (List ArrayItem)
  maps : String → Option MapObject

/-- Outcome of a collection read: a JS exception escaped, the source
signalled "invalid" by returning `undefined`, or a value was produced. -/
inductive CRes where
  | thrown
  | invalid
  | ok (v : Json)
deriving Repr, DecidableEq

/-- `data-array-index` as interpolated into the item's pointer paths:
`parseInt(indexStr || "0", 10)` rendered back to text. -/
def arrayItemIdxStr (it : ArrayItem) : String :=
  let indexStr := if it.indexStr = "" then "0" else it.indexStr
  match jsParseInt indexStr with
  | .finite q => toString q.num
  | _ => "NaN"

/-- The object-typed branch of the array/map item collectors: fold the
item's controls whose path extends `px`, aborting on an invalid edit state
(`undefined` for the whole collection) and skipping unset values.
`requireType` is true for the map collector, whose query also demands a
`data-type` attribute. -/
def collectObjControls (px : String) (requireType : Bool) :
    List (String × Control) → Json → CRes
  | [], acc => .ok acc
  | (p, c) :: rest, acc =>
    if requireType && c.typeAttr = none then collectObjControls px requireType rest acc
    else if !(jsStartsWith p (px ++ "/")) then collectObjControls px requireType rest acc
    else if isControlInInvalidEditState c then .invalid
    else
      match readControlValue c with
      | none => collectObjControls px requireType rest acc
      | some v =>
        match setValueAtPointer acc (jsDropChars p (jsLenChars px)) v with
        | none => .thrown
        | some acc2 => collectObjControls px requireType rest acc2

/-- Is this JSON value a non-empty object? (`Object.keys(obj).length > 0`
on the accumulated object branch result.) -/
def isNonEmptyObj : Json → Bool
  | .obj (_ :: _) => true
  | _ => false

/-- Source `collectArrayObjectValue`, one item at a time. -/
def collectArrayItems (fs : FormState) (arrayPath : String) :
    List ArrayItem → List Json → CRes
  | [], acc => .ok (.arr acc)
  | it :: rest, acc =>
    let px := arrayPath ++ "/" ++ arrayItemIdxStr it
    match it.controls.find? (fun pc => pc.1 = px && pc.2.typeAttr.isSome) with
    | some (_, c) =>
      if isControlInInvalidEditState c then .invalid
      else
        match readControlValue c with
        | none => collectArrayItems fs arrayPath rest acc
        | some v => collectArrayItems fs arrayPath rest (acc ++ [v])
    | none =>
      match collectObjControls px false it.controls (.obj []) with
      | .thrown => .thrown
      | .invalid => .invalid
      | .ok obj =>
        if isNonEmptyObj obj then collectArrayItems fs arrayPath rest (acc ++ [obj])
        else collectArrayItems fs arrayPath rest acc

/-- Source `collectArrayObjectValue`: a missing editor root, array element
or items container reads as the empty array; otherwise the items are folded
(scalar items through their directly-bound control, object items through
`collectObjControls`). -/
def collectArrayObjectValue (fs : FormState) (arrayPath : String) : CRes :=
  match fs.arrays arrayPath with
  | none => .ok (.arr [])
  | some items => collectArrayItems fs arrayPath items []

/-- Source `validateMapObject`: non-blank trimmed keys must match the
declared pattern (when one is present), and no counted key may repeat;
pattern-failing keys are excluded from the duplicate count. -/
def validateMapObject (m : MapObject) : Bool :=
  let ks := (m.items.filterMap (fun it => it.keyRaw.map jsTrim)).filter (· ≠ "")
  let patternFail :=
    match m.keyTest with
    | some t => ks.any (fun k => !(t k))
    | none => false
  let counted :=
    match m.keyTest with
    | some t => ks.filter t
    | none => ks
  let dup := counted.any (fun k => counted.count k > 1)
  !patternFail && !dup

/-- Source `collectMapObjectValue`, one `.map-item` at a time.  Items with
no key input or a blank key are skipped; a scalar map value reads its
directly-bound `data-map-role="value"` control; a nested `.array-object`
bound to the value path is collected recursively and only kept non-empty;
anything else folds the object-typed controls under the value path. -/
def collectMapItems (fs : FormState) (mapPath : String) :
    List MapItem → List (String × Json) → CRes
  | [], acc => .ok (.obj acc)
  | it :: rest, acc =>
    match it.keyRaw with
    | none => collectMapItems fs mapPath rest acc
    | some kraw =>
      let key := jsTrim kraw
      if key = "" then collectMapItems fs mapPath rest acc
      else
        let vp := mapPath ++ "/" ++ encodeJsonPointerSegment key
        match it.controls.find? (fun pc =>
            pc.2.mapRoleValue && pc.1 = vp && pc.2.typeAttr.isSome) with
        | some (_, c) =>
          if isControlInInvalidEditState c then .invalid
          else
            match readControlValue c with
            | none => collectMapItems fs mapPath rest acc
            | some v => collectMapItems fs mapPath rest (objSet acc key v)
        | none =>
          if (fs.arrays vp).isSome then
            match collectArrayObjectValue fs vp with
            | .thrown => .thrown
            | .invalid => .invalid
            | .ok (.arr (x :: xs)) =>
              collectMapItems fs mapPath rest (objSet acc key (.arr (x :: xs)))
            | .ok _ => collectMapItems fs mapPath rest acc
          else
            match collectObjControls vp true it.controls (.obj []) with
            | .thrown => .thrown
            | .invalid => .invalid
            | .ok obj =>
              if isNonEmptyObj obj then collectMapItems fs mapPath rest (objSet acc key obj)
              else collectMapItems fs mapPath rest acc

/-- Source `collectMapObjectValue`: a missing editor root or map element
reads as the empty object; an invalid key set (pattern or duplicate) makes
the whole map `undefined`; a missing items container reads as the empty
object; otherwise the items are folded. -/
def collectMapObjectValue (fs : FormState) (mapPath : String) : CRes :=
  match fs.maps mapPath with
  | none => .ok (.obj [])
  | some m =>
    if !validateMapObject m then .invalid
    else if !m.itemsContainerPresent then .ok (.obj [])
    else collectMapItems fs mapPath m.items []

/-- Source `collectCollectionValue`: dispatch on whether an `.array-object`
or `.map-object` is bound to the path; neither kind present reads as the
empty array. -/
def collectCollectionValue (fs : FormState) (path : String) : CRes :=
  if (fs.arrays path).isSome then collectArrayObjectValue fs path
  else if (fs.maps path).isSome then collectMapObjectValue fs path
  else .ok (.arr [])

/-- Source `isUnderDirtyCollection`: the path equals a dirty collection root
or extends one by a slash. -/
def isUnderDirtyCollection (dirtyCollectionPaths : List String) (path : String) : Bool :=
  dirtyCollectionPaths.any (fun root => path = root || jsStartsWith path (root ++ "/"))

/-- The dirty-leaf overlay loop of source `buildUpdatedJson`: skip paths
shadowed by a dirty collection, paths with no matching typed form control,
and controls in an invalid edit state; an unset control value deletes the
location, any other sets it (`none` models an escaping `TypeError`). -/
def applyDirtyLeaves (fs : FormState) (dirtyCollectionPaths : List String) :
    List String → Json → Option Json
  | [], u => some u
  | p :: rest, u =>
    if isUnderDirtyCollection dirtyCollectionPaths p then
      applyDirtyLeaves fs dirtyCollectionPaths rest u
    else
      match fs.leafControl p with
      | none => applyDirtyLeaves fs dirtyCollectionPaths rest u
      | some c =>
        if isControlInInvalidEditState c then applyDirtyLeaves fs dirtyCollectionPaths rest u
        else
          match readControlValue c with
          | none => applyDirtyLeaves fs dirtyCollectionPaths rest (deleteValueAtPointer u p)
          | some v =>
            match setValueAtPointer u p v with
            | none => none
            | some u2 => applyDirtyLeaves fs dirtyCollectionPaths rest u2

/-- The dirty-collection overlay loop of source `buildUpdatedJson`: an
invalid collection is withheld (skipped); an empty array, a falsy value or
an empty object deletes the pointer; anything else sets it. -/
def applyDirtyCollections (fs : FormState) : List String → Json → Option Json
  | [], u => some u
  | cp :: rest, u =>
    match collectCollectionValue fs cp with
    | .thrown => none
    | .invalid => applyDirtyCollections fs rest u
    | .ok collected =>
      match collected with
      | .arr [] => applyDirtyCollections fs rest (deleteValueAtPointer u cp)
      | .arr xs =>
        match setValueAtPointer u cp (.arr xs) with
        | none => none
        | some u2 => applyDirtyCollections fs rest u2
      | other =>
        if jsFalsy other || isEmptyObj other then
          applyDirtyCollections fs rest (deleteValueAtPointer u cp)
        else
          match setValueAtPointer u cp other with
          | none => none
          | some u2 => applyDirtyCollections fs rest u2

/-- Source `buildUpdatedJson`: clone the base snapshot (`|| \x7b\x7d` turns a
falsy base into an empty object), overlay the dirty leaves not shadowed by a
dirty collection, overlay the dirty collections, then prune empty objects
against the base.  `none` models an escaping JS exception. -/
def buildUpdatedJson (fs : FormState) (baseData : Json)
    (dirtyPaths dirtyCollectionPaths : List String) : Option Json :=
  let updated := cloneJson (if jsFalsy baseData then .obj [] else baseData)
  match applyDirtyLeaves fs dirtyCollectionPaths dirtyPaths updated with
  | none => none
  | some u1 =>
    match applyDirtyCollections fs dirtyCollectionPaths u1 with
    | none => none
    | some u2 => some (pruneEmptyObjects u2 (some baseData))

/-- The synchronisation fields of the webview `SettingsEditorApp`.
`renderCount` counts the full re-renders performed by `updateData`
(`renderArrayObjectItemsFromData` / `renderMapObjectItemsFromData` /
`updateFormInputs` / re-indexing), standing in for their DOM effects. -/
structure AppState where
  data : Json
  baseData : Json
  sessionId : String
  syncRev : Int
  lastSentRev : Int
  lastAckRev : Int
  dirtyPaths : List String
  dirtyCollectionPaths : List String
  lastSentJsonText : Option String
  lastSentJsonTs : Int
  renderCount : Nat
deriving DecidableEq

/-- Source `handleUpdateJsonAck`: not-ok or rev-less acks log and stop;
acks older than `lastAckRev` are discarded; otherwise `lastAckRev`
advances, and only when the ack matches the last sent revision is the base
snapshot replaced by a clone of the live value and both dirty sets
cleared. -/
def handleUpdateJsonAck (ok : Bool) (rev : Option Int) (s : AppState) : AppState :=
  if !ok then s
  else
    match rev with
    | none => s
    | some r =>
      if r < s.lastAckRev then s
      else
        let s1 := { s with lastAckRev := r }
        if r ≠ s1.lastSentRev then s1
        else
          { s1 with
            baseData := cloneJson s1.data
            dirtyPaths := []
            dirtyCollectionPaths := [] }

/-- Source `updateData`: parse the forwarded snapshot (a parse failure only
logs), replace the live value, reset the base snapshot to a clone, clear
both dirty sets and re-render. -/
def updateData (json : String) (s : AppState) : AppState :=
  match jsonParse json with
  | none => s
  | some parsed =>
    { s with
      data := parsed
      baseData := cloneJson parsed
      dirtyPaths := []
      dirtyCollectionPaths := []
      renderCount := s.renderCount + 1 }

/-- The `loadJson` branch of source `handleMessage`: within 2500 ms of a
send, a snapshot that parses deep-structurally equal to the last sent text
is ignored as this replica's own echo; anything else goes through
`updateData`. -/
def handleLoadJson (now : Int) (json : String) (s : AppState) : AppState :=
  if (match s.lastSentJsonText with | some t => t ≠ "" | none => false)
      && now - s.lastSentJsonTs < 2500 then
    match safeParseJsonText (some json), safeParseJsonText s.lastSentJsonText with
    | some echoed, some sent =>
      if deepEqualJson echoed sent then s else updateData json s
    | _, _ => updateData json s
  else updateData json s

/-- The `updateJson` message posted by `handleFormChange` (the logging-only
`dirtyPaths`/`dirtyCollections` samples and timestamp are omitted). -/
structure UpdateEnvelope where
  json : String
  sessionId : String
  rev : Int
  reason : String
  hintPath : Option String
  dirtyPathCount : Nat
  dirtyCollectionCount : Nat
deriving DecidableEq

/-- Source `handleFormChange`: rebuild the document; only when its compact
serialization differs from the live value's does the replica adopt it, bump
the revision, record the pretty-printed text and timestamp, and post an
`updateJson` envelope.  An exception during the rebuild leaves the state
unchanged and posts nothing. -/
def handleFormChange (fs : FormState) (now : Int) (reason : String)
    (hintPath : Option String) (s : AppState) : AppState × Option UpdateEnvelope :=
  match buildUpdatedJson fs s.baseData s.dirtyPaths s.dirtyCollectionPaths with
  | none => (s, none)
  | some updated =>
    if stringifyJson updated ≠ stringifyJson s.data then
      let rev := s.syncRev + 1
      let json := stringifyPretty updated ""
      ({ s with
          data := updated
          syncRev := rev
          lastSentRev := rev
          lastSentJsonText := some json
          lastSentJsonTs := now },
        some
          { json := json
            sessionId := s.sessionId
            rev := rev
            reason := reason
            hintPath := hintPath
            dirtyPathCount := s.dirtyPaths.length
            dirtyCollectionCount := s.dirtyCollectionPaths.length })
    else (s, none)

/-- The bound text document as the owner sees it. -/
structure Document where
  text : String
  version : Int
  isClosed : Bool
  isDirty : Bool
deriving DecidableEq

/-- The fields of an `updateJsonAck` meta consulted by the claims (the
logging extras — panelId, uri, version, lastAppliedRev, ignored — are
omitted). -/
structure AckMeta where
  ok : Bool
  noop : Bool
  reason : Option String
deriving DecidableEq

/-- Result of the owner-side write path: the acks posted to the webview (in
order), the returned `ok`, the document afterwards, and the
`_suppressNextDocToWebviewSync` entry afterwards. -/
structure OwnerResult where
  acks : List AckMeta
  ok : Bool
  doc : Option Document
  suppress : Option (String × Int)
deriving DecidableEq

/-- Source `_updateJson`: no bound document returns without posting; a
closed document is rejected; text identical to the incoming JSON
acknowledges `ok, noop` without mutation; otherwise the suppression entry is
recorded and the edit applied (`applyEditOk` models the
`workspace.applyEdit` outcome; on failure the suppression entry is deleted
and the write rejected, on success the full text is replaced and the
version advances). -/
def updateJson (now : Int) (json : String) (doc : Option Document)
    (applyEditOk : Bool) (suppress0 : Option (String × Int)) : OwnerResult :=
  match doc with
  | none =>
    { acks := [], ok := false, doc := none, suppress := suppress0 }
  | some d =>
    if d.isClosed then
      { acks := [{ ok := false, noop := false, reason := some "document-closed" }]
        ok := false, doc := some d, suppress := suppress0 }
    else if d.text = json then
      { acks := [{ ok := true, noop := true, reason := some "no-change" }]
        ok := true, doc := some d, suppress := suppress0 }
    else if applyEditOk then
      { acks := [{ ok := true, noop := false, reason := none }]
        ok := true
        doc := some { text := json, version := d.version + 1, isClosed := false, isDirty := true }
        suppress := some (json, now) }
    else
      { acks := [{ ok := false, noop := false, reason := some "applyEdit-false" }]
        ok := false, doc := some d, suppress := none }

/-- The `(sessionId, rev)` entry of `_lastAppliedRevMap` (the stored
sessionId is `undefined` when the write that created the entry carried
none). -/
structure LastApplied where
  sessionId : Option String
  rev : Int
deriving DecidableEq

/-- JS falsiness of an optional session id (`undefined` or the empty
string). -/
def sessionFalsy : Option String → Bool
  | none => true
  | some s => s = ""

/-- The `updateJson` branch of source `_handleWebviewMessage`: without a
bound document the write is refused; a numeric rev at or below the stored
`lastAppliedRev` whose session matches (where a falsy incoming or stored
session also counts as a match) is acknowledged `ok:false, stale-rev`
without touching the document; otherwise `_updateJson` runs and, on
success, `lastAppliedRev` is advanced to the write's rev and session. -/
def handleUpdateJsonMsg (now : Int) (msgRev : Option Int) (msgSessionId : Option String)
    (json : String) (doc : Option Document) (lastApplied : Option LastApplied)
    (applyEditOk : Bool) (suppress0 : Option (String × Int)) :
    OwnerResult × Option LastApplied :=
  match doc with
  | none =>
    ({ acks := [{ ok := false, noop := false, reason := some "no-bound-document" }]
       ok := false, doc := none, suppress := suppress0 }, lastApplied)
  | some d =>
    let stale :=
      match msgRev, lastApplied with
      | some r, some la =>
        decide (r ≤ la.rev) &&
          (sessionFalsy msgSessionId || sessionFalsy la.sessionId ||
            msgSessionId == la.sessionId)
      | _, _ => false
    if stale then
      ({ acks := [{ ok := false, noop := false, reason := some "stale-rev" }]
         ok := false, doc := some d, suppress := suppress0 }, lastApplied)
    else
      let res := updateJson now json (some d) applyEditOk suppress0
      let la2 :=
        match res.ok, msgRev with
        | true, some r => some { sessionId := msgSessionId, rev := r }
        | _, _ => lastApplied
      (res, la2)

/-- The key predicate compiled from the pattern `^[a-z]+$`: one or more
lowercase ASCII letters, matching the whole key. -/
def lowerKeyPattern (s : String) : Bool :=
  s ≠ "" && s.toList.all (fun c => 'a' ≤ c && c ≤ 'z')

/-- A map scalar-value text control holding `"x"`. -/
def mapValueControl : Control :=
  { anyofInactive := false, constVal := none, disabled := false,
    typeAttr := some "string", value := "x", checked := false,
    mapRoleValue := true, validityValid := true }

/-- A form whose only collection is the map at `/m`, keyed by the pattern
`^[a-z]+$`, holding a single item whose typed key is `"A1"`. -/
def fsMapA1 : FormState :=
  { leafControl := fun _ => none
    arrays := fun _ => none
    maps := fun p =>
      if p = "/m" then
        some
          { keyTest := some lowerKeyPattern
            itemsContainerPresent := true
            items := [{ keyRaw := some "A1", controls := [("/m/A1", mapValueControl)] }] }
      else none }

/-- An enabled, valid string control holding `"y"`. -/
def otherControl : Control :=
  { anyofInactive := false, constVal := none, disabled := false,
    typeAttr := some "string", value := "y", checked := false,
    mapRoleValue := false, validityValid := true }

/-- `fsMapA1` (the invalid map at `/m`) together with an independent leaf
control at `/other`. -/
def fsMapA1Edit : FormState :=
  { leafControl := fun p => if p = "/other" then some otherControl else none
    arrays := fun _ => none
    maps := fsMapA1.maps }

/-- An enabled, valid string control with empty text (reads as unset, so a
dirty path bound to it is deleted from the rebuilt document). -/
def emptyStringControl : Control :=
  { anyofInactive := false, constVal := none, disabled := false,
    typeAttr := some "string", value := "", checked := false,
    mapRoleValue := false, validityValid := true }

/-- A form whose only control is the empty string control at `/a/x`. -/
def fsDeleteAX : FormState :=
  { leafControl := fun p => if p = "/a/x" then some emptyStringControl else none
    arrays := fun _ => none
    maps := fun _ => none }

/-- A number-typed control carrying `data-const="5"` and blank text. -/
def constNumberControl : Control :=
  { anyofInactive := false, constVal := some (.num 5), disabled := false,
    typeAttr := some "number", value := "   ", checked := false,
    mapRoleValue := false, validityValid := true }

/-- A replica state with revisions 1..3 sent (live value at revision 3) and
no acks processed yet. -/
def c1State : AppState :=
  { data := .obj [("name", .str "alice"), ("n", .num 3)]
    baseData := .obj []
    sessionId := "sess-1"
    syncRev := 3
    lastSentRev := 3
    lastAckRev := 0
    dirtyPaths := ["/name", "/n"]
    dirtyCollectionPaths := []
    lastSentJsonText := some "x"
    lastSentJsonTs := 0
    renderCount := 0 }

/-- A replica state that sent `\x7b"x":1\x7d` at time 0 and still has `/x`
dirty. -/
def c5State : AppState :=
  { data := .obj [("x", .num 1)]
    baseData := .obj []
    sessionId := "sess-5"
    syncRev := 1
    lastSentRev := 1
    lastAckRev := 0
    dirtyPaths := ["/x"]
    dirtyCollectionPaths := []
    lastSentJsonText := some "\x7b\"x\":1\x7d"
    lastSentJsonTs := 0
    renderCount := 0 }

/-- A clean replica state whose live value already equals the rebuilt
document (nothing dirty). -/
def c8State : AppState :=
  { data := .obj [("x", .num 1)]
    baseData := .obj [("x", .num 1)]
    sessionId := "sess-8"
    syncRev := 2
    lastSentRev := 2
    lastAckRev := 2
    dirtyPaths := []
    dirtyCollectionPaths := []
    lastSentJsonText := none
    lastSentJsonTs := 0
    renderCount := 0 }

/-- A form with no controls at all. -/
def fsEmpty : FormState :=
  { leafControl := fun _ => none, arrays := fun _ => none, maps := fun _ => none }

/-- C10: the Document Owner parses text by deleting every comma that
precedes optional whitespace and a closing brace or bracket and only then
calling JSON.parse; the deletion also fires inside string literals, so the
valid document `\x7b"a":",\x7d"\x7d` parses to `\x7b"a":"\x7d"\x7d` through
the owner while plain JSON.parse yields `\x7b"a":",\x7d"\x7d` — the results
differ. -/
theorem C10_trailing_comma_eats_strings :
    cleanTrailingCommas "\x7b\"a\":\",\x7d\"\x7d" = "\x7b\"a\":\"\x7d\"\x7d" ∧
    parseJsonWithTrailingCommas "\x7b\"a\":\",\x7d\"\x7d" = some (.obj [("a", .str "\x7d")]) ∧
    jsonParse "\x7b\"a\":\",\x7d\"\x7d" = some (.obj [("a", .str ",\x7d")]) ∧
    parseJsonWithTrailingCommas "\x7b\"a\":\",\x7d\"\x7d" ≠
      jsonParse "\x7b\"a\":\",\x7d\"\x7d" := by
  refine ⟨by decide, by decide, by decide, by decide⟩

/-- C7: pointer parsing splits on slashes, decodes `~1` then `~0`, and sends
every all-digit segment to a numeric index, so no string segment it produces
is ever all digits (object keys such as "123" are unreachable). -/
theorem C7_parsePointer_digit_segments :
    (∀ (p : String) (k : String), Seg.str k ∈ parsePointer p → isAllDigits k = false) ∧
    parsePointer "/obj/123" = [.str "obj", .idx 123] ∧
    parsePointer "/m/123/~1~0" = [.str "m", .idx 123, .str "/~"] := by
  refine ⟨?_, by decide, by decide⟩
  intro p k hk
  simp only [parsePointer] at hk
  by_cases h0 : (if jsStartsWith p "/" then jsDropChars p 1 else p) = ""
  · rw [if_pos h0] at hk
    exact absurd hk (List.not_mem_nil _)
  · rw [if_neg h0, List.mem_map] at hk
    obtain ⟨seg, -, hseg⟩ := hk
    by_cases hd : isAllDigits (decodeSegment seg) = true
    · rw [if_pos hd] at hseg
      exact absurd hseg (by simp)
    · rw [if_neg hd] at hseg
      injection hseg with h
      rw [← h]
      simpa using hd

/-- C7 witness: the parser maps the segment "a" of "/a" to a string segment,
which is therefore not all digits. -/
theorem C7_parsePointer_digit_segments_witness :
    Seg.str "a" ∈ parsePointer "/a" ∧ isAllDigits "a" = false :=
  ⟨by decide, C7_parsePointer_digit_segments.1 "/a" "a" (by decide)⟩

/-- C6 (amended): an incoming write whose text equals the bound document's
current text is acknowledged `ok:true, noop:true` (reason "no-change") with
the document — content and version — untouched, PROVIDED the bound document
is open; a closed document is rejected `ok:false` even when the text
matches. -/
theorem C6_noop_write (now : Int) (json : String) (d : Document)
    (applyEditOk : Bool) (sup : Option (String × Int))
    (hopen : d.isClosed = false) (heq : d.text = json) :
    updateJson now json (some d) applyEditOk sup =
      { acks := [{ ok := true, noop := true, reason := some "no-change" }]
        ok := true, doc := some d, suppress := sup } := by
  simp [updateJson, hopen, heq]

/-- C6 witness: a concrete open document whose text already equals the
incoming JSON is acknowledged as a no-op and left unchanged. -/
theorem C6_noop_write_witness :
    updateJson 0 "\x7b\x7d"
        (some { text := "\x7b\x7d", version := 7, isClosed := false, isDirty := false })
        true none =
      { acks := [{ ok := true, noop := true, reason := some "no-change" }]
        ok := true
        doc := some { text := "\x7b\x7d", version := 7, isClosed := false, isDirty := false }
        suppress := none } :=
  C6_noop_write 0 "\x7b\x7d"
    { text := "\x7b\x7d", version := 7, isClosed := false, isDirty := false }
    true none rfl rfl

/-- C6 counterexample: the claim as stated fails for a closed bound
document — the text equals the incoming JSON, yet the ack is `ok:false`
with reason "document-closed", not `ok:true, noop:true`. -/
theorem C6_noop_write_counterexample :
    (Document.mk "\x7b\x7d" 7 true false).text = "\x7b\x7d" ∧
    updateJson 0 "\x7b\x7d" (some (Document.mk "\x7b\x7d" 7 true false)) true none =
      { acks := [{ ok := false, noop := false, reason := some "document-closed" }]
        ok := false, doc := some (Document.mk "\x7b\x7d" 7 true false), suppress := none } := by
  refine ⟨rfl, by decide⟩

/-- C1: acknowledgment handling — a not-ok ack changes nothing; an ack with
rev below `lastAckRev` is discarded unchanged; otherwise `lastAckRev`
becomes rev, and the base snapshot is replaced by a clone of the live value
with both dirty sets cleared exactly when rev equals `lastSentRev` (an ack
for an older outstanding revision only does the bookkeeping).  Consequently
for sent revisions 1,2,3 acknowledged in order 1,3,2 the base snapshot is
the clone taken at revision 3 and the late ack for revision 2 is a no-op. -/
theorem C1_ack_protocol :
    (∀ (s : AppState) (rev : Option Int), handleUpdateJsonAck false rev s = s) ∧
    (∀ (s : AppState) (r : Int), r < s.lastAckRev →
      handleUpdateJsonAck true (some r) s = s) ∧
    (∀ (s : AppState) (r : Int), s.lastAckRev ≤ r →
      (handleUpdateJsonAck true (some r) s).lastAckRev = r ∧
      (r = s.lastSentRev →
        handleUpdateJsonAck true (some r) s =
          { s with lastAckRev := r, baseData := cloneJson s.data,
                   dirtyPaths := [], dirtyCollectionPaths := [] }) ∧
      (r ≠ s.lastSentRev →
        handleUpdateJsonAck true (some r) s = { s with lastAckRev := r })) ∧
    (∀ (s : AppState), s.lastSentRev = 3 → s.lastAckRev ≤ 1 →
      handleUpdateJsonAck true (some 2)
          (handleUpdateJsonAck true (some 3) (handleUpdateJsonAck true (some 1) s)) =
        handleUpdateJsonAck true (some 3) (handleUpdateJsonAck true (some 1) s) ∧
      handleUpdateJsonAck true (some 3) (handleUpdateJsonAck true (some 1) s) =
        { s with lastAckRev := 3, baseData := cloneJson s.data,
                 dirtyPaths := [], dirtyCollectionPaths := [] }) := by
  refine ⟨?_, ?_, ?_, ?_⟩
  · intro s rev
    simp [handleUpdateJsonAck]
  · intro s r h
    simp [handleUpdateJsonAck, h]
  · intro s r h
    have hnlt : ¬ r < s.lastAckRev := not_lt.mpr h
    refine ⟨?_, ?_, ?_⟩
    · by_cases he : r = s.lastSentRev
      · subst he
        simp [handleUpdateJsonAck, hnlt]
      · simp [handleUpdateJsonAck, hnlt, he]
    · intro he
      subst he
      simp [handleUpdateJsonAck, hnlt]
    · intro he
      simp [handleUpdateJsonAck, hnlt, he]
  · intro s h3 hle
    have e1 : handleUpdateJsonAck true (some 1) s = { s with lastAckRev := 1 } := by
      have h1 : ¬ (1 : Int) < s.lastAckRev := by omega
      have h2 : (1 : Int) ≠ s.lastSentRev := by omega
      simp [handleUpdateJsonAck, h1, h2]
    have e2 : handleUpdateJsonAck true (some 3) { s with lastAckRev := 1 } =
        { s with lastAckRev := 3, baseData := cloneJson s.data,
                 dirtyPaths := [], dirtyCollectionPaths := [] } := by
      simp [handleUpdateJsonAck, h3]
    have e3 : handleUpdateJsonAck true (some 2)
        { s with lastAckRev := 3, baseData := cloneJson s.data,
                 dirtyPaths := [], dirtyCollectionPaths := [] } =
        { s with lastAckRev := 3, baseData := cloneJson s.data,
                 dirtyPaths := [], dirtyCollectionPaths := [] } := by
      simp [handleUpdateJsonAck]
    rw [e1, e2, e3]
    exact ⟨rfl, rfl⟩

/-- C1 witness: on a concrete replica state with revisions 1..3 sent, acks
arriving 1,3,2 leave the base snapshot at the revision-3 clone and the late
ack for revision 2 changes nothing. -/
theorem C1_ack_protocol_witness :
    handleUpdateJsonAck true (some 2)
        (handleUpdateJsonAck true (some 3) (handleUpdateJsonAck true (some 1) c1State)) =
      handleUpdateJsonAck true (some 3) (handleUpdateJsonAck true (some 1) c1State) ∧
    handleUpdateJsonAck true (some 3) (handleUpdateJsonAck true (some 1) c1State) =
      { c1State with lastAckRev := 3, baseData := cloneJson c1State.data,
                     dirtyPaths := [], dirtyCollectionPaths := [] } :=
  C1_ack_protocol.2.2.2 c1State rfl (by decide)

/-- C2 (amended): an incoming write with numeric rev at or below the stored
`lastAppliedRev` whose sessionId matches the stored one is rejected
`ok:false, stale-rev` with the document and the stored revision untouched;
a write whose sessionId differs from the stored one bypasses the guard and
is processed by `_updateJson` — provided both sessionIds are non-empty (an
empty sessionId is falsy and is treated like a missing one, so it does NOT
bypass the guard). -/
theorem C2_staleRev_guard :
    (∀ (now r lr : Int) (ssid json : String) (d : Document)
        (applyEditOk : Bool) (sup : Option (String × Int)),
      r ≤ lr →
        handleUpdateJsonMsg now (some r) (some ssid) json (some d)
            (some { sessionId := some ssid, rev := lr }) applyEditOk sup =
          ({ acks := [{ ok := false, noop := false, reason := some "stale-rev" }]
             ok := false, doc := some d, suppress := sup },
           some { sessionId := some ssid, rev := lr })) ∧
    (∀ (now r lr : Int) (ssid s0 json : String) (d : Document)
        (applyEditOk : Bool) (sup : Option (String × Int)),
      ssid ≠ "" → s0 ≠ "" → ssid ≠ s0 →
        (handleUpdateJsonMsg now (some r) (some ssid) json (some d)
            (some { sessionId := some s0, rev := lr }) applyEditOk sup).1 =
          updateJson now json (some d) applyEditOk sup) := by
  constructor
  · intro now r lr ssid json d applyEditOk sup hle
    simp [handleUpdateJsonMsg, hle]
  · intro now r lr ssid s0 json d applyEditOk sup h1 h2 hne
    simp [handleUpdateJsonMsg, sessionFalsy, h1, h2, hne]

/-- C2 witness: a concrete stale write (rev 1 against stored rev 5) with
the matching sessionId "abc" is rejected with reason "stale-rev" and the
document is untouched. -/
theorem C2_staleRev_guard_witness :
    handleUpdateJsonMsg 0 (some 1) (some "abc") "\x7b\"a\":1\x7d"
        (some { text := "old", version := 1, isClosed := false, isDirty := false })
        (some { sessionId := some "abc", rev := 5 }) true none =
      ({ acks := [{ ok := false, noop := false, reason := some "stale-rev" }]
         ok := false
         doc := some { text := "old", version := 1, isClosed := false, isDirty := false }
         suppress := none },
       some { sessionId := some "abc", rev := 5 }) :=
  C2_staleRev_guard.1 0 1 5 "abc" "\x7b\"a\":1\x7d"
    { text := "old", version := 1, isClosed := false, isDirty := false }
    true none (by decide)

/-- C2 counterexample: a write carrying the empty-string sessionId — a
sessionId different from the stored "abc" — is still rejected by the stale
guard (the falsy incoming id disables the session comparison), so "a write
carrying a different sessionId is not rejected by this guard" fails as
stated. -/
theorem C2_staleRev_guard_counterexample :
    ("" : String) ≠ "abc" ∧
    (handleUpdateJsonMsg 0 (some 1) (some "") "\x7b\"a\":1\x7d"
        (some { text := "old", version := 1, isClosed := false, isDirty := false })
        (some { sessionId := some "abc", rev := 5 }) true none).1.acks =
      [{ ok := false, noop := false, reason := some "stale-rev" }] := by
  exact ⟨by decide, by decide⟩

/-- C5 (amended): within the 2500 ms suppression window after a send (with
a recorded non-empty last-sent text and both texts parseable), a forwarded
snapshot that parses deep-structurally equal to the last-sent content is
ignored entirely — no base snapshot replacement, no dirty-set clearing, no
re-render; a genuinely different snapshot replaces the base snapshot with a
clone of the parsed value, clears both dirty sets and re-renders.  Outside
the window even an echoed identical snapshot is applied (see the
counterexample), which is what the amendment adds to the claim. -/
theorem C5_loadJson_echo (now : Int) (s : AppState) (json t : String) (j jt : Json)
    (ht : s.lastSentJsonText = some t) (hne : t ≠ "")
    (hwin : now - s.lastSentJsonTs < 2500)
    (hj : safeParseJsonText (some json) = some j)
    (hjt : safeParseJsonText (some t) = some jt) :
    (deepEqualJson j jt = true → handleLoadJson now json s = s) ∧
    (deepEqualJson j jt = false →
      handleLoadJson now json s =
        { s with data := j, baseData := cloneJson j, dirtyPaths := [],
                 dirtyCollectionPaths := [], renderCount := s.renderCount + 1 }) := by
  have hparse : jsonParse json = some j := by
    by_cases h0 : jsTrim json = ""
    · simp [safeParseJsonText, h0] at hj
    · simpa [safeParseJsonText, h0] using hj
  constructor
  · intro heq
    simp [handleLoadJson, ht, hne, hwin, hj, hjt, heq]
  · intro hneq
    simp [handleLoadJson, ht, hne, hwin, hj, hjt, hneq, updateData, hparse]

/-- C5 witness: one second after sending `\x7b"x":1\x7d`, the echoed
snapshot `\x7b"x": 1\x7d` (same value, different spacing) is ignored: the
state, including the dirty leaf `/x` and the render count, is exactly
unchanged. -/
theorem C5_loadJson_echo_witness :
    handleLoadJson 1000 "\x7b\"x\": 1\x7d" c5State = c5State :=
  (C5_loadJson_echo 1000 c5State "\x7b\"x\": 1\x7d" "\x7b\"x\":1\x7d"
      (.obj [("x", .num 1)]) (.obj [("x", .num 1)])
      rfl (by decide) (by decide) (by decide) (by decide)).1 (by decide)

/-- C5 counterexample: the same semantically-equal snapshot arriving 5000 ms
after the send (outside the 2500 ms window) IS applied — the dirty leaf set
is cleared and a re-render happens — so the claim, which promises the echo
check for every semantically-equal snapshot with no window condition, fails
on the code. -/
theorem C5_loadJson_echo_counterexample :
    safeParseJsonText (some "\x7b\"x\": 1\x7d") = some (.obj [("x", .num 1)]) ∧
    safeParseJsonText c5State.lastSentJsonText = some (.obj [("x", .num 1)]) ∧
    deepEqualJson (.obj [("x", .num 1)]) (.obj [("x", .num 1)]) = true ∧
    c5State.dirtyPaths = ["/x"] ∧
    (handleLoadJson 5000 "\x7b\"x\": 1\x7d" c5State).dirtyPaths = [] ∧
    (handleLoadJson 5000 "\x7b\"x\": 1\x7d" c5State).renderCount =
      c5State.renderCount + 1 := by
  refine ⟨by decide, by decide, by decide, by decide, by decide, by decide⟩

/-- A non-const integer control holding unparseable text. -/
def nanIntegerControl : Control :=
  { anyofInactive := false, constVal := none, disabled := false,
    typeAttr := some "integer", value := "abc", checked := false,
    mapRoleValue := false, validityValid := true }

/-- C8: `handleFormChange` posts an `updateJson` envelope exactly when the
rebuilt document's JSON serialization differs from the live value's; when
nothing is posted the whole state — revision counter, `lastSentRev` and the
recorded last-sent text/timestamp included — is unchanged, and when an
envelope is posted the revision counter advances exactly once and stamps
the envelope. -/
theorem C8_formChange_send_iff (fs : FormState) (now : Int) (reason : String)
    (hintPath : Option String) (s : AppState) (updated : Json)
    (hb : buildUpdatedJson fs s.baseData s.dirtyPaths s.dirtyCollectionPaths = some updated) :
    ((handleFormChange fs now reason hintPath s).2.isSome ↔
      stringifyJson updated ≠ stringifyJson s.data) ∧
    ((handleFormChange fs now reason hintPath s).2 = none →
      (handleFormChange fs now reason hintPath s).1 = s) ∧
    (∀ e, (handleFormChange fs now reason hintPath s).2 = some e →
      (handleFormChange fs now reason hintPath s).1.syncRev = s.syncRev + 1 ∧
      (handleFormChange fs now reason hintPath s).1.lastSentRev = s.syncRev + 1 ∧
      e.rev = s.syncRev + 1 ∧
      (handleFormChange fs now reason hintPath s).1.lastSentJsonText = some e.json ∧
      (handleFormChange fs now reason hintPath s).1.lastSentJsonTs = now) := by
  by_cases hne : stringifyJson updated = stringifyJson s.data
  · refine ⟨?_, ?_, ?_⟩
    · simp [handleFormChange, hb, hne]
    · intro _
      simp [handleFormChange, hb, hne]
    · intro e he
      simp [handleFormChange, hb, hne] at he
  · refine ⟨?_, ?_, ?_⟩
    · simp [handleFormChange, hb, hne]
    · intro hnone
      simp [handleFormChange, hb, hne] at hnone
    · intro e he
      simp only [handleFormChange, hb, ne_eq, hne, not_false_iff, if_true] at he ⊢
      cases he
      simp

/-- C8 witness: on a clean state whose rebuilt document equals the live
value, `handleFormChange` posts nothing and leaves the state — in
particular the revision counter and last-sent record — untouched. -/
theorem C8_formChange_send_iff_witness :
    (handleFormChange fsEmpty 0 "change" none c8State).1 = c8State :=
  (C8_formChange_send_iff fsEmpty 0 "change" none c8State (.obj [("x", .num 1)])
      (by decide)).2.1 (by decide)

/-- C9 (amended): for a number- or integer-typed control WITHOUT a
`data-const` constant, `readControlValue` is unset whenever the trimmed
text is empty; any value it does return is the number produced by a finite
parse (`parseInt` base 10 for integer, `parseFloat` for number), and a
parse yielding NaN or an infinity always reads as unset — no non-finite
value is ever returned.  (A const-bearing numeric control returns its
constant regardless of its text, which is what the amendment excludes; see
the counterexample.) -/
theorem C9_numeric_controls (c : Control)
    (hconst : c.constVal = none)
    (hty : c.typeAttr = some "number" ∨ c.typeAttr = some "integer") :
    (jsTrim c.value = "" → readControlValue c = none) ∧
    (∀ v, readControlValue c = some v →
      ∃ q, v = .num q ∧
        (if c.typeAttr = some "integer" then jsParseInt (jsTrim c.value)
         else jsParseFloat (jsTrim c.value)) = .finite q) ∧
    ((if c.typeAttr = some "integer" then jsParseInt (jsTrim c.value)
      else jsParseFloat (jsTrim c.value)) = .nan → readControlValue c = none) ∧
    ((if c.typeAttr = some "integer" then jsParseInt (jsTrim c.value)
      else jsParseFloat (jsTrim c.value)) = .posInf → readControlValue c = none) ∧
    ((if c.typeAttr = some "integer" then jsParseInt (jsTrim c.value)
      else jsParseFloat (jsTrim c.value)) = .negInf → readControlValue c = none) := by
  have hread : readControlValue c =
      (if c.anyofInactive then none
       else if c.disabled then none
       else if jsTrim c.value = "" then none
       else
         match (if c.typeAttr = some "integer" then jsParseInt (jsTrim c.value)
                else jsParseFloat (jsTrim c.value)) with
         | .finite q => some (.num q)
         | _ => none) := by
    rcases hty with h | h <;>
      simp [readControlValue, hconst, h]
  by_cases h1 : c.anyofInactive
  · rw [hread]
    simp [h1]
  by_cases h2 : c.disabled
  · rw [hread]
    simp [h1, h2]
  by_cases h3 : jsTrim c.value = ""
  · rw [hread]
    simp [h1, h2, h3]
  · rw [hread]
    simp only [h1, h2, h3, if_false, Bool.false_eq_true]
    cases hp : (if c.typeAttr = some "integer" then jsParseInt (jsTrim c.value)
                else jsParseFloat (jsTrim c.value)) with
    | finite q =>
      refine ⟨by simp [h3], ?_, by simp, by simp, by simp⟩
      intro v hv
      simp only [Option.some.injEq] at hv
      exact ⟨q, hv.symm, rfl⟩
    | nan => exact ⟨by simp [h3], by simp, by simp, by simp, by simp⟩
    | posInf => exact ⟨by simp [h3], by simp, by simp, by simp, by simp⟩
    | negInf => exact ⟨by simp [h3], by simp, by simp, by simp, by simp⟩

/-- C9 witness: a non-const integer control whose text "abc" parses to NaN
reads as unset. -/
theorem C9_numeric_controls_witness :
    readControlValue nanIntegerControl = none :=
  (C9_numeric_controls nanIntegerControl rfl (Or.inr rfl)).2.2.1 (by decide)

/-- C9 counterexample: a number-typed control carrying `data-const="5"`
with blank text returns the constant 5 even though its trimmed text is
empty, so "returns undefined when the control's trimmed text is empty"
fails for const-bearing numeric controls. -/
theorem C9_numeric_controls_counterexample :
    constNumberControl.typeAttr = some "number" ∧
    jsTrim constNumberControl.value = "" ∧
    readControlValue constNumberControl = some (.num 5) := by
  refine ⟨rfl, by decide, by decide⟩

theorem find_map_replace (k : String) (v : Json) :
    ∀ (fields : List (String × Json)),
      fields.any (fun kv => kv.1 = k) = true →
      (fields.map (fun kv => if kv.1 = k then (k, v) else kv)).find?
          (fun kv => kv.1 = k) = some (k, v) := by
  intro fields
  induction fields with
  | nil => intro h; simp at h
  | cons kv rest ih =>
    intro h
    obtain ⟨k0, v0⟩ := kv
    by_cases hk : k0 = k
    · simp [List.find?_cons, hk]
    · have hr : rest.any (fun kv => kv.1 = k) = true := by
        simpa [hk] using h
      simp only [List.map_cons, if_neg hk, List.find?_cons]
      simp only [show (decide (k0 = k)) = false by simp [hk]]
      exact ih hr

theorem find_append_new (k : String) (v : Json) :
    ∀ (fields : List (String × Json)),
      fields.any (fun kv => kv.1 = k) = false →
      (fields ++ [(k, v)]).find? (fun kv => kv.1 = k) = some (k, v) := by
  intro fields
  induction fields with
  | nil => intro _; simp [List.find?_cons]
  | cons kv rest ih =>
    intro h
    obtain ⟨k0, v0⟩ := kv
    rw [List.any_cons] at h
    have hk : (decide (k0 = k)) = false := by
      cases hdk : decide (k0 = k) with
      | true => rw [hdk] at h; simp at h
      | false => rfl
    have hr : rest.any (fun kv => kv.1 = k) = false := by
      cases har : rest.any (fun kv => kv.1 = k) with
      | true => rw [har] at h; simp at h
      | false => rfl
    rw [List.cons_append, List.find?_cons]
    simp only [hk]
    exact ih hr

theorem objSet_find_self (k : String) (v : Json) (fields : List (String × Json)) :
    (objSet fields k v).find? (fun kv => kv.1 = k) = some (k, v) := by
  rw [objSet]
  by_cases h : fields.any (fun kv => kv.1 = k) = true
  · rw [if_pos h]
    exact find_map_replace k v fields h
  · rw [if_neg h]
    refine find_append_new k v fields ?_
    revert h
    cases fields.any (fun kv => kv.1 = k) <;> simp

theorem find_map_other (k k2 : String) (v : Json) (hne : k2 ≠ k) :
    ∀ (fields : List (String × Json)),
      (fields.map (fun kv => if kv.1 = k then (k, v) else kv)).find?
          (fun kv => kv.1 = k2) = fields.find? (fun kv => kv.1 = k2) := by
  intro fields
  induction fields with
  | nil => rfl
  | cons kv rest ih =>
    obtain ⟨k0, v0⟩ := kv
    simp only [List.map_cons, List.find?_cons]
    by_cases hk : k0 = k
    · rw [if_pos hk]
      have h2 : (decide (k = k2)) = false := by
        simp only [decide_eq_false_iff_not]
        exact fun he => hne he.symm
      have h0 : (decide (k0 = k2)) = false := by
        simp only [decide_eq_false_iff_not]
        exact fun he => hne (he ▸ hk)
      simp only [h2, h0]
      exact ih
    · rw [if_neg hk]
      cases hdk : decide (k0 = k2) with
      | true => simp only [hdk]
      | false =>
        simp only [hdk]
        exact ih

theorem find_append_other (k k2 : String) (v : Json) (hne : k2 ≠ k) :
    ∀ (fields : List (String × Json)),
      (fields ++ [(k, v)]).find? (fun kv => kv.1 = k2) =
        fields.find? (fun kv => kv.1 = k2) := by
  intro fields
  induction fields with
  | nil =>
    have h2 : (decide (k = k2)) = false := by
      simp only [decide_eq_false_iff_not]
      exact fun he => hne he.symm
    simp [List.find?_cons, h2]
  | cons kv rest ih =>
    obtain ⟨k0, v0⟩ := kv
    rw [List.cons_append, List.find?_cons, List.find?_cons]
    cases hdk : decide (k0 = k2) with
    | true => simp only [hdk]
    | false =>
      simp only [hdk]
      exact ih

theorem objSet_find_other (k k2 : String) (v : Json) (hne : k2 ≠ k)
    (fields : List (String × Json)) :
    (objSet fields k v).find? (fun kv => kv.1 = k2) =
      fields.find? (fun kv => kv.1 = k2) := by
  rw [objSet]
  by_cases h : fields.any (fun kv => kv.1 = k) = true
  · rw [if_pos h]
    exact find_map_other k k2 v hne fields
  · rw [if_neg h]
    exact find_append_other k k2 v hne fields

theorem objDelete_find_other (k k2 : String) (hne : k2 ≠ k) :
    ∀ (fields : List (String × Json)),
      (objDelete fields k).find? (fun kv => kv.1 = k2) =
        fields.find? (fun kv => kv.1 = k2) := by
  intro fields
  induction fields with
  | nil => rfl
  | cons kv rest ih =>
    obtain ⟨k0, v0⟩ := kv
    rw [objDelete, List.filter_cons]
    by_cases hk : k0 = k
    · have hp : (decide ((k0, v0).1 ≠ k)) = false := by
        simp [hk]
      rw [hp]
      have h0 : (decide (k0 = k2)) = false := by
        simp only [decide_eq_false_iff_not]
        exact fun he => hne (he ▸ hk)
      rw [if_neg (by simp), List.find?_cons]
      simp only [h0]
      exact ih
    · have hp : (decide ((k0, v0).1 ≠ k)) = true := by
        simp [hk]
      rw [hp, if_pos rfl]
      rw [List.find?_cons, List.find?_cons]
      cases hdk : decide (k0 = k2) with
      | true => simp only [hdk]
      | false =>
        simp only [hdk]
        exact ih

theorem get_set_self : ∀ (xs : List Json) (n : Nat) (v : Json),
    n < xs.length → (xs.set n v).get? n = some v := by
  intro xs
  induction xs with
  | nil => intro n v h; simp at h
  | cons x rest ih =>
    intro n v h
    cases n with
    | zero => rfl
    | succ m => exact ih m v (Nat.lt_of_succ_lt_succ h)

theorem get_pad_last : ∀ (xs : List Json) (m : Nat) (v : Json),
    (xs ++ List.replicate m Json.null ++ [v]).get? (xs.length + m) = some v := by
  intro xs
  induction xs with
  | nil =>
    intro m v
    induction m with
    | zero => rfl
    | succ m2 ih2 => simpa using ih2
  | cons x rest ih =>
    intro m v
    have harith : (x :: rest).length + m = (rest.length + m) + 1 := by
      simp [List.length_cons]
      omega
    rw [harith]
    exact ih m v

theorem arrSet_get_self (xs : List Json) (n : Nat) (v : Json) :
    (arrSet xs n v).get? n = some v := by
  rw [arrSet]
  by_cases h : n < xs.length
  · rw [if_pos h]
    exact get_set_self xs n v h
  · rw [if_neg h]
    have hgp := get_pad_last xs (n - xs.length) v
    rwa [show xs.length + (n - xs.length) = n by omega] at hgp

theorem jsIndex_obj (fields : List (String × Json)) (seg : Seg) :
    jsIndex (.obj fields) seg =
      (fields.find? (fun kv => kv.1 = segKey seg)).map (fun kv => kv.2) := by
  cases seg <;> rfl

theorem jsAssign_obj (fields : List (String × Json)) (seg : Seg) (v : Json) :
    jsAssign (.obj fields) seg v = some (.obj (objSet fields (segKey seg) v)) := by
  cases seg <;> rfl

theorem segDiverges_key (a b : Seg) : segDiverges a b = true → segKey a ≠ segKey b := by
  cases a <;> cases b <;> simp [segDiverges, segKey]

theorem isEmptyObj_false_of_jsIndex (x : Json) (s : Seg) (y : Json) :
    jsIndex x s = some y → isEmptyObj x = false := by
  intro h
  cases x with
  | obj fields =>
    cases fields with
    | nil =>
      exfalso
      cases s <;> simp [jsIndex] at h
    | cons f fs => rfl
  | arr xs => rfl
  | null => exfalso; cases s <;> simp [jsIndex] at h
  | bool b0 => exfalso; cases s <;> simp [jsIndex] at h
  | num q => exfalso; cases s <;> simp [jsIndex] at h
  | str s0 => exfalso; cases s <;> simp [jsIndex] at h

theorem jsIndex_arr_nil (s : Seg) : jsIndex (.arr []) s = none := by
  cases s <;> rfl

theorem jsIndex_obj_nil (s : Seg) : jsIndex (.obj []) s = none := by
  cases s <;> rfl

theorem jsIndex_null (s : Seg) : jsIndex Json.null s = none := by
  cases s <;> rfl

theorem jsIndex_bool (b0 : Bool) (s : Seg) : jsIndex (Json.bool b0) s = none := by
  cases s <;> rfl

theorem jsIndex_num (q : Rat) (s : Seg) : jsIndex (Json.num q) s = none := by
  cases s <;> rfl

theorem jsIndex_str (t : String) (s : Seg) : jsIndex (Json.str t) s = none := by
  cases s <;> rfl

theorem jsIndex_arr_str (xs : List Json) (k : String) :
    jsIndex (Json.arr xs) (Seg.str k) = none := rfl

theorem jsAssign_null (a : Seg) (v : Json) : jsAssign Json.null a v = none := by
  cases a <;> rfl

theorem jsAssign_bool (b0 : Bool) (a : Seg) (v : Json) :
    jsAssign (Json.bool b0) a v = none := by
  cases a <;> rfl

theorem jsAssign_num (q : Rat) (a : Seg) (v : Json) :
    jsAssign (Json.num q) a v = none := by
  cases a <;> rfl

theorem jsAssign_str (t : String) (a : Seg) (v : Json) :
    jsAssign (Json.str t) a v = none := by
  cases a <;> rfl

theorem jsAssign_jsIndex_other (u u2 : Json) (a b : Seg) (v : Json)
    (hdiv : segDiverges a b = true) (h : jsAssign u a v = some u2) :
    jsIndex u2 b = jsIndex u b := by
  have hkey := segDiverges_key a b hdiv
  cases u with
  | obj fields =>
    rw [jsAssign_obj] at h
    injection h with hu2
    rw [← hu2, jsIndex_obj, jsIndex_obj,
      objSet_find_other (segKey a) (segKey b) v (Ne.symm hkey) fields]
  | arr xs =>
    cases a with
    | idx n =>
      cases b with
      | idx m => simp [segDiverges] at hdiv
      | str s2 =>
        have h0 : some (Json.arr (arrSet xs n v)) = some u2 := h
        injection h0 with hu2
        rw [← hu2, jsIndex_arr_str, jsIndex_arr_str]
    | str s2 =>
      have h0 : some (Json.arr xs) = some u2 := h
      injection h0 with hu2
      rw [← hu2]
  | null => rw [jsAssign_null] at h; exact absurd h (by simp)
  | bool b0 => rw [jsAssign_bool] at h; exact absurd h (by simp)
  | num q => rw [jsAssign_num] at h; exact absurd h (by simp)
  | str t => rw [jsAssign_str] at h; exact absurd h (by simp)

theorem go_cons_step (u u2 child2 d : Json) (a : Seg) (bs2 : List Seg)
    (hself : jsIndex u2 a = some child2)
    (hju : jsIndex u a = some d)
    (htail : getValueAtPointer.go child2 bs2 = getValueAtPointer.go d bs2) :
    getValueAtPointer.go u2 (a :: bs2) = getValueAtPointer.go u (a :: bs2) := by
  simp only [getValueAtPointer.go, hself, hju]
  exact htail

theorem go_cons_stepNone (u u2 child2 : Json) (a : Seg) (bs2 : List Seg)
    (hself : jsIndex u2 a = some child2)
    (hju : jsIndex u a = none)
    (htail : getValueAtPointer.go child2 bs2 = none) :
    getValueAtPointer.go u2 (a :: bs2) = getValueAtPointer.go u (a :: bs2) := by
  simp only [getValueAtPointer.go, hself, hju, htail]

theorem go_congr_index (u u2 : Json) (b : Seg) (bs2 : List Seg)
    (hio : jsIndex u2 b = jsIndex u b) :
    getValueAtPointer.go u2 (b :: bs2) = getValueAtPointer.go u (b :: bs2) := by
  simp only [getValueAtPointer.go, hio]

theorem go_nil_of_empty (d : Json) (bs : List Seg)
    (hd : ∀ s, jsIndex d s = none) (hne : bs ≠ []) :
    getValueAtPointer.go d bs = none := by
  cases bs with
  | nil => exact absurd rfl hne
  | cons b bs2 => simp only [getValueAtPointer.go, hd b]

theorem pathsIndependent_nil_left (bs : List Seg) : pathsIndependent [] bs = false := by
  cases bs <;> rfl

theorem pathsIndependent_nil_right (as : List Seg) : pathsIndependent as [] = false := by
  cases as <;> rfl

theorem pathsIndependent_cons (a b : Seg) (as bs : List Seg) :
    pathsIndependent (a :: as) (b :: bs) =
      (segDiverges a b || (decide (a = b) && pathsIndependent as bs)) := rfl

theorem pathsIndependent_head (a b : Seg) (as bs : List Seg)
    (h : pathsIndependent (a :: as) (b :: bs) = true) :
    segDiverges a b = true ∨ (a = b ∧ pathsIndependent as bs = true) := by
  rw [pathsIndependent_cons] at h
  cases hdv : segDiverges a b with
  | true => exact Or.inl rfl
  | false =>
    rw [hdv, Bool.false_or, Bool.and_eq_true] at h
    exact Or.inr ⟨of_decide_eq_true h.1, h.2⟩

theorem pathsIndependent_ne_nil (as bs : List Seg)
    (h : pathsIndependent as bs = true) : bs ≠ [] := by
  intro hb
  subst hb
  rw [pathsIndependent_nil_right] at h
  exact absurd h (by simp)

theorem go_preserve_assign (u u2 child2 : Json) (a b : Seg) (bs2 : List Seg)
    (hja : jsAssign u a child2 = some u2)
    (hcase : segDiverges a b = true ∨
      (a = b ∧ ((∃ c, jsIndex u a = some c ∧
          getValueAtPointer.go child2 bs2 = getValueAtPointer.go c bs2) ∨
        (jsIndex u a = none ∧ getValueAtPointer.go child2 bs2 = none)))) :
    getValueAtPointer.go u2 (b :: bs2) = getValueAtPointer.go u (b :: bs2) := by
  rcases hcase with hdiv | ⟨hab, hcase2⟩
  · exact go_congr_index u u2 b bs2 (jsAssign_jsIndex_other u u2 a b child2 hdiv hja)
  · subst hab
    rcases hcase2 with ⟨c, hji, htail⟩ | ⟨hji, htail⟩
    · cases u with
      | obj fields =>
        rw [jsAssign_obj] at hja
        injection hja with hu2
        refine go_cons_step (Json.obj fields) u2 child2 c a bs2 ?_ hji htail
        rw [← hu2, jsIndex_obj, objSet_find_self]
        rfl
      | arr xs =>
        cases a with
        | str k => rw [jsIndex_arr_str] at hji; exact Option.noConfusion hji
        | idx n =>
          have h0 : some (Json.arr (arrSet xs n child2)) = some u2 := hja
          injection h0 with hu2
          refine go_cons_step (Json.arr xs) u2 child2 c (Seg.idx n) bs2 ?_ hji htail
          rw [← hu2]
          exact arrSet_get_self xs n child2
      | null => rw [jsIndex_null] at hji; exact Option.noConfusion hji
      | bool b0 => rw [jsIndex_bool] at hji; exact Option.noConfusion hji
      | num q => rw [jsIndex_num] at hji; exact Option.noConfusion hji
      | str t => rw [jsIndex_str] at hji; exact Option.noConfusion hji
    · cases u with
      | obj fields =>
        rw [jsAssign_obj] at hja
        injection hja with hu2
        refine go_cons_stepNone (Json.obj fields) u2 child2 a bs2 ?_ hji htail
        rw [← hu2, jsIndex_obj, objSet_find_self]
        rfl
      | arr xs =>
        cases a with
        | str k =>
          have h0 : some (Json.arr xs) = some u2 := hja
          injection h0 with hu2
          rw [← hu2]
        | idx n =>
          have h0 : some (Json.arr (arrSet xs n child2)) = some u2 := hja
          injection h0 with hu2
          refine go_cons_stepNone (Json.arr xs) u2 child2 (Seg.idx n) bs2 ?_ hji htail
          rw [← hu2]
          exact arrSet_get_self xs n child2
      | null => rw [jsAssign_null] at hja; exact absurd hja (by simp)
      | bool b0 => rw [jsAssign_bool] at hja; exact absurd hja (by simp)
      | num q => rw [jsAssign_num] at hja; exact absurd hja (by simp)
      | str t => rw [jsAssign_str] at hja; exact absurd hja (by simp)

theorem setSegs_getAt : ∀ (ps bs : List Seg) (u u2 v : Json),
    pathsIndependent ps bs = true → setSegs u ps v = some u2 →
    getValueAtPointer.go u2 bs = getValueAtPointer.go u bs := by
  intro ps
  induction ps with
  | nil =>
    intro bs u u2 v h _
    rw [pathsIndependent_nil_left] at h
    exact absurd h (by simp)
  | cons a as ih =>
    intro bs u u2 v h hs
    cases bs with
    | nil =>
      rw [pathsIndependent_nil_right] at h
      exact absurd h (by simp)
    | cons b bs2 =>
      cases as with
      | nil =>
        simp only [setSegs] at hs
        rcases pathsIndependent_head a b [] bs2 h with hdiv | ⟨hab, hind⟩
        · exact go_congr_index u u2 b bs2 (jsAssign_jsIndex_other u u2 a b v hdiv hs)
        · rw [pathsIndependent_nil_left] at hind
          exact absurd hind (by simp)
      | cons a2 rest =>
        simp only [setSegs] at hs
        cases hji : jsIndex u a with
        | some c =>
          simp only [hji] at hs
          cases hinner : setSegs c (a2 :: rest) v with
          | none => simp only [hinner] at hs; exact absurd hs (by simp)
          | some child2 =>
            simp only [hinner] at hs
            rcases pathsIndependent_head a b (a2 :: rest) bs2 h with hdiv | ⟨hab, hind⟩
            · exact go_preserve_assign u u2 child2 a b bs2 hs (Or.inl hdiv)
            · exact go_preserve_assign u u2 child2 a b bs2 hs
                (Or.inr ⟨hab, Or.inl ⟨c, hji, ih bs2 c child2 v hind hinner⟩⟩)
        | none =>
          simp only [hji] at hs
          have hdempty : ∀ s, jsIndex (childDefault a2) s = none := by
            intro s
            cases a2 with
            | str s2 => exact jsIndex_obj_nil s
            | idx m => exact jsIndex_arr_nil s
          cases hinner : setSegs (childDefault a2) (a2 :: rest) v with
          | none => simp only [hinner] at hs; exact absurd hs (by simp)
          | some child2 =>
            simp only [hinner] at hs
            rcases pathsIndependent_head a b (a2 :: rest) bs2 h with hdiv | ⟨hab, hind⟩
            · exact go_preserve_assign u u2 child2 a b bs2 hs (Or.inl hdiv)
            · have hbs2 : bs2 ≠ [] := pathsIndependent_ne_nil (a2 :: rest) bs2 hind
              have htail : getValueAtPointer.go child2 bs2 = none := by
                rw [ih bs2 (childDefault a2) child2 v hind hinner]
                exact go_nil_of_empty (childDefault a2) bs2 hdempty hbs2
              exact go_preserve_assign u u2 child2 a b bs2 hs
                (Or.inr ⟨hab, Or.inr ⟨hji, htail⟩⟩)

theorem deleteLast_jsIndex_other (u : Json) (a b : Seg) (hdiv : segDiverges a b = true) :
    jsIndex (deleteSegs u [a]) b = jsIndex u b := by
  have hkey := segDiverges_key a b hdiv
  cases u with
  | obj fields =>
    cases a with
    | str k =>
      have hu : deleteSegs (Json.obj fields) [Seg.str k] = Json.obj (objDelete fields k) := rfl
      rw [hu, jsIndex_obj, jsIndex_obj,
        objDelete_find_other k (segKey b) (Ne.symm hkey) fields]
    | idx n =>
      have hu : deleteSegs (Json.obj fields) [Seg.idx n] =
          Json.obj (objDelete fields (toString n)) := rfl
      rw [hu, jsIndex_obj, jsIndex_obj,
        objDelete_find_other (toString n) (segKey b) (Ne.symm hkey) fields]
  | arr xs =>
    cases a with
    | idx n =>
      cases b with
      | idx m => simp [segDiverges] at hdiv
      | str s2 =>
        have hu : deleteSegs (Json.arr xs) [Seg.idx n] =
            Json.arr (xs.take n ++ xs.drop (n + 1)) := rfl
        rw [hu, jsIndex_arr_str, jsIndex_arr_str]
    | str k =>
      have hu : deleteSegs (Json.arr xs) [Seg.str k] = Json.arr xs := rfl
      rw [hu]
  | null =>
    have hu : deleteSegs Json.null [a] = Json.null := by cases a <;> rfl
    rw [hu]
  | bool b0 =>
    have hu : deleteSegs (Json.bool b0) [a] = Json.bool b0 := by cases a <;> rfl
    rw [hu]
  | num q =>
    have hu : deleteSegs (Json.num q) [a] = Json.num q := by cases a <;> rfl
    rw [hu]
  | str t =>
    have hu : deleteSegs (Json.str t) [a] = Json.str t := by cases a <;> rfl
    rw [hu]

theorem deleteSegs_getAt : ∀ (ps bs : List Seg) (u : Json),
    pathsIndependent ps bs = true →
    getValueAtPointer.go (deleteSegs u ps) bs = getValueAtPointer.go u bs := by
  intro ps
  induction ps with
  | nil =>
    intro bs u h
    rw [pathsIndependent_nil_left] at h
    exact absurd h (by simp)
  | cons a as ih =>
    intro bs u h
    cases bs with
    | nil =>
      rw [pathsIndependent_nil_right] at h
      exact absurd h (by simp)
    | cons b bs2 =>
      cases as with
      | nil =>
        rcases pathsIndependent_head a b [] bs2 h with hdiv | ⟨hab, hind⟩
        · exact go_congr_index u (deleteSegs u [a]) b bs2 (deleteLast_jsIndex_other u a b hdiv)
        · rw [pathsIndependent_nil_left] at hind
          exact absurd hind (by simp)
      | cons a2 rest =>
        simp only [deleteSegs]
        cases hji : jsIndex u a with
        | none => simp only [hji]
        | some c =>
          simp only [hji]
          cases hja : jsAssign u a (deleteSegs c (a2 :: rest)) with
          | none => simp only [hja]
          | some u2 =>
            simp only [hja]
            refine go_preserve_assign u u2 (deleteSegs c (a2 :: rest)) a b bs2 hja ?_
            rcases pathsIndependent_head a b (a2 :: rest) bs2 h with hdiv | ⟨hab, hind⟩
            · exact Or.inl hdiv
            · exact Or.inr ⟨hab, Or.inl ⟨c, hji, ih bs2 c hind⟩⟩

theorem setValueAtPointer_getAt (u u2 v : Json) (p P : String)
    (hind : pathsIndependent (parsePointer p) (parsePointer P) = true)
    (hset : setValueAtPointer u p v = some u2) :
    getValueAtPointer.go u2 (parsePointer P) = getValueAtPointer.go u (parsePointer P) := by
  cases hpp : parsePointer p with
  | nil =>
    rw [hpp, pathsIndependent_nil_left] at hind
    exact absurd hind (by simp)
  | cons a as =>
    rw [hpp] at hind
    simp only [setValueAtPointer, hpp] at hset
    exact setSegs_getAt (a :: as) (parsePointer P) u u2 v hind hset

theorem deleteValueAtPointer_getAt (u : Json) (p P : String)
    (hind : pathsIndependent (parsePointer p) (parsePointer P) = true) :
    getValueAtPointer.go (deleteValueAtPointer u p) (parsePointer P) =
      getValueAtPointer.go u (parsePointer P) := by
  cases hpp : parsePointer p with
  | nil =>
    rw [hpp, pathsIndependent_nil_left] at hind
    exact absurd hind (by simp)
  | cons a as =>
    rw [hpp] at hind
    have hd : deleteValueAtPointer u p = deleteSegs u (a :: as) := by
      simp only [deleteValueAtPointer, hpp]
    rw [hd]
    exact deleteSegs_getAt (a :: as) (parsePointer P) u hind

theorem applyDirtyLeaves_preserveAt (fs : FormState) (dcp : List String) (P : String) :
    ∀ (dps : List String) (u u2 : Json),
      (∀ p ∈ dps, isUnderDirtyCollection dcp p = true ∨
        pathsIndependent (parsePointer p) (parsePointer P) = true) →
      applyDirtyLeaves fs dcp dps u = some u2 →
      getValueAtPointer.go u2 (parsePointer P) = getValueAtPointer.go u (parsePointer P) := by
  intro dps
  induction dps with
  | nil =>
    intro u u2 _ happ
    simp only [applyDirtyLeaves] at happ
    injection happ with h0
    rw [h0]
  | cons p rest ih =>
    intro u u2 hyp happ
    have hrest : ∀ q ∈ rest, isUnderDirtyCollection dcp q = true ∨
        pathsIndependent (parsePointer q) (parsePointer P) = true :=
      fun q hq => hyp q (List.mem_cons_of_mem p hq)
    simp only [applyDirtyLeaves] at happ
    cases hsh : isUnderDirtyCollection dcp p with
    | true =>
      rw [if_pos hsh] at happ
      exact ih u u2 hrest happ
    | false =>
      rw [if_neg (by simp [hsh])] at happ
      have hindp : pathsIndependent (parsePointer p) (parsePointer P) = true := by
        rcases hyp p (List.mem_cons_self p rest) with hq | hq
        · rw [hsh] at hq; exact absurd hq (by simp)
        · exact hq
      cases hlc : fs.leafControl p with
      | none => simp only [hlc] at happ; exact ih u u2 hrest happ
      | some c =>
        simp only [hlc] at happ
        cases hie : isControlInInvalidEditState c with
        | true =>
          rw [if_pos hie] at happ
          exact ih u u2 hrest happ
        | false =>
          rw [if_neg (by simp [hie])] at happ
          cases hrv : readControlValue c with
          | none =>
            simp only [hrv] at happ
            rw [ih _ u2 hrest happ]
            exact deleteValueAtPointer_getAt u p P hindp
          | some v =>
            simp only [hrv] at happ
            cases hset : setValueAtPointer u p v with
            | none => simp only [hset] at happ; exact absurd happ (by simp)
            | some u3 =>
              simp only [hset] at happ
              rw [ih u3 u2 hrest happ]
              exact setValueAtPointer_getAt u u3 v p P hindp hset

theorem applyDC_ok_step (fs : FormState) (cp : String) (rest : List String)
    (u u2 w0 : Json)
    (hok : collectCollectionValue fs cp = CRes.ok w0)
    (happ : applyDirtyCollections fs (cp :: rest) u = some u2) :
    ∃ u3, applyDirtyCollections fs rest u3 = some u2 ∧
      (u3 = deleteValueAtPointer u cp ∨ ∃ w2, setValueAtPointer u cp w2 = some u3) := by
  simp only [applyDirtyCollections, hok] at happ
  split at happ
  · exact ⟨_, happ, Or.inl rfl⟩
  · split at happ
    · exact absurd happ (by simp)
    · rename_i u3 hset
      exact ⟨u3, happ, Or.inr ⟨_, hset⟩⟩
  · split at happ
    · exact ⟨_, happ, Or.inl rfl⟩
    · split at happ
      · exact absurd happ (by simp)
      · rename_i u3 hset
        exact ⟨u3, happ, Or.inr ⟨_, hset⟩⟩

theorem applyDirtyCollections_preserveAt (fs : FormState) (P : String)
    (hinv : collectCollectionValue fs P = CRes.invalid) :
    ∀ (dcp : List String) (u u2 : Json),
      (∀ c ∈ dcp, c = P ∨ pathsIndependent (parsePointer c) (parsePointer P) = true) →
      applyDirtyCollections fs dcp u = some u2 →
      getValueAtPointer.go u2 (parsePointer P) = getValueAtPointer.go u (parsePointer P) := by
  intro dcp
  induction dcp with
  | nil =>
    intro u u2 _ happ
    simp only [applyDirtyCollections] at happ
    injection happ with h0
    rw [h0]
  | cons cp rest ih =>
    intro u u2 hyp happ
    have hrest : ∀ c ∈ rest, c = P ∨
        pathsIndependent (parsePointer c) (parsePointer P) = true :=
      fun c hc => hyp c (List.mem_cons_of_mem cp hc)
    cases hcol : collectCollectionValue fs cp with
    | thrown =>
      simp only [applyDirtyCollections, hcol] at happ
      exact absurd happ (by simp)
    | invalid =>
      simp only [applyDirtyCollections, hcol] at happ
      exact ih u u2 hrest happ
    | ok w0 =>
      have hindcp : pathsIndependent (parsePointer cp) (parsePointer P) = true := by
        rcases hyp cp (List.mem_cons_self cp rest) with hq | hq
        · rw [hq] at hcol
          rw [hcol] at hinv
          exact absurd hinv (by simp)
        · exact hq
      obtain ⟨u3, hrest2, hstep⟩ := applyDC_ok_step fs cp rest u u2 w0 hcol happ
      have h3 : getValueAtPointer.go u3 (parsePointer P) =
          getValueAtPointer.go u (parsePointer P) := by
        rcases hstep with hdel | ⟨w2, hset⟩
        · rw [hdel]
          exact deleteValueAtPointer_getAt u cp P hindcp
        · exact setValueAtPointer_getAt u u3 w2 cp P hindcp hset
      rw [ih u3 u2 hrest hrest2]
      exact h3

mutual

theorem prune_inert : ∀ (w : Json) (b : Option Json),
    pruneInert w = true → pruneEmptyObjects w b = w
  | .null, _ => fun _ => rfl
  | .bool v, _ => fun _ => rfl
  | .num q, _ => fun _ => rfl
  | .str s, _ => fun _ => rfl
  | .arr xs, b => fun h => by
      have h2 : pruneInertList xs = true := h
      have h3 : pruneList xs b 0 = xs := prune_inert_list xs b 0 h2
      rw [show pruneEmptyObjects (Json.arr xs) b = Json.arr (pruneList xs b 0) from rfl, h3]
  | .obj fs2, b => fun h => by
      have h2 : pruneInertFields fs2 = true := h
      rw [show pruneEmptyObjects (Json.obj fs2) b = Json.obj (pruneFields fs2 b) from rfl,
        prune_inert_fields fs2 b h2]

theorem prune_inert_list : ∀ (xs : List Json) (b : Option Json) (i : Nat),
    pruneInertList xs = true → pruneList xs b i = xs
  | [], _, _ => fun _ => rfl
  | x :: xs, b, i => fun h => by
      have h2 : (pruneInert x && pruneInertList xs) = true := h
      rw [Bool.and_eq_true] at h2
      have hx := prune_inert x (jsIndexOpt b (Seg.idx i)) h2.1
      have hxs := prune_inert_list xs b (i + 1) h2.2
      rw [show pruneList (x :: xs) b i =
          pruneEmptyObjects x (jsIndexOpt b (Seg.idx i)) :: pruneList xs b (i + 1) from rfl,
        hx, hxs]

theorem prune_inert_fields : ∀ (fs2 : List (String × Json)) (b : Option Json),
    pruneInertFields fs2 = true → pruneFields fs2 b = fs2
  | [], _ => fun _ => rfl
  | (k, v) :: fs2, b => fun h => by
      have h2 : ((!(isEmptyObj v) && pruneInert v) && pruneInertFields fs2) = true := h
      rw [Bool.and_eq_true, Bool.and_eq_true] at h2
      have hv := prune_inert v (jsIndexOpt b (Seg.str k)) h2.1.2
      have hfs := prune_inert_fields fs2 b h2.2
      have hemp : isEmptyObj v = false := by
        have h3 := h2.1.1
        cases hb : isEmptyObj v
        · rfl
        · rw [hb] at h3; exact absurd h3 (by simp)
      simp only [pruneFields]
      rw [hv, hemp, Bool.false_and, if_neg Bool.false_ne_true, hfs]

end

theorem pruneList_get : ∀ (xs : List Json) (b : Option Json) (i n : Nat),
    (pruneList xs b i).get? n =
      (xs.get? n).map (fun x => pruneEmptyObjects x (jsIndexOpt b (Seg.idx (i + n)))) := by
  intro xs
  induction xs with
  | nil => intro b i n; simp [pruneList]
  | cons x rest ih =>
    intro b i n
    cases n with
    | zero =>
      have h1 : (pruneList (x :: rest) b i).get? 0 =
          some (pruneEmptyObjects x (jsIndexOpt b (Seg.idx i))) := rfl
      rw [h1, Nat.add_zero]
      rfl
    | succ m =>
      have h1 : (pruneList (x :: rest) b i).get? (m + 1) =
          (pruneList rest b (i + 1)).get? m := rfl
      rw [h1, ih b (i + 1) m, show i + 1 + m = i + (m + 1) by omega]
      rfl

theorem isEmptyObj_false_of_go (x : Json) (rest : List Seg) (w : Json)
    (h : getValueAtPointer.go x rest = some w) (hw : isEmptyObj w = false) :
    isEmptyObj x = false := by
  cases rest with
  | nil =>
    simp only [getValueAtPointer.go] at h
    injection h with h0
    rw [h0]
    exact hw
  | cons s2 r2 =>
    simp only [getValueAtPointer.go] at h
    cases hji : jsIndex x s2 with
    | none => simp only [hji] at h; exact absurd h (by simp)
    | some y2 => exact isEmptyObj_false_of_jsIndex x s2 y2 hji

theorem pruneFields_find_kept :
    ∀ (fields : List (String × Json)) (b : Option Json) (k : String) (y : Json),
      fields.find? (fun kv => kv.1 = k) = some (k, y) →
      isEmptyObj (pruneEmptyObjects y (jsIndexOpt b (Seg.str k))) = false →
      (pruneFields fields b).find? (fun kv => kv.1 = k) =
        some (k, pruneEmptyObjects y (jsIndexOpt b (Seg.str k))) := by
  intro fields
  induction fields with
  | nil => intro b k y hf _; simp at hf
  | cons kv rest ih =>
    intro b k y hf hne
    obtain ⟨k0, v0⟩ := kv
    by_cases hk : k0 = k
    · subst hk
      have hfv : v0 = y := by
        have h0 : ((k0, v0) :: rest).find? (fun kv => kv.1 = k0) = some (k0, v0) := by
          rw [List.find?_cons]
          simp
        rw [h0] at hf
        injection hf with h1
        exact congrArg Prod.snd h1
      subst hfv
      simp only [pruneFields]
      rw [hne, Bool.false_and, if_neg Bool.false_ne_true]
      simp [List.find?_cons]
    · have hdk : (decide (k0 = k)) = false := by simp [hk]
      rw [List.find?_cons] at hf
      rw [hdk] at hf
      simp only [pruneFields]
      split
      · exact ih b k y hf hne
      · simp only [List.find?_cons, hdk]
        exact ih b k y hf hne

theorem prune_getAt_some : ∀ (ps : List Seg) (u : Json) (b : Option Json) (w : Json),
    getValueAtPointer.go u ps = some w → pruneInert w = true → isEmptyObj w = false →
    getValueAtPointer.go (pruneEmptyObjects u b) ps = some w := by
  intro ps
  induction ps with
  | nil =>
    intro u b w h hi _
    simp only [getValueAtPointer.go] at h ⊢
    injection h with h0
    rw [h0, prune_inert w b hi]
  | cons s rest ih =>
    intro u b w h hi he
    simp only [getValueAtPointer.go] at h
    cases hji : jsIndex u s with
    | none => simp only [hji] at h; exact absurd h (by simp)
    | some y =>
      simp only [hji] at h
      cases u with
      | obj fields =>
        rw [jsIndex_obj] at hji
        cases hfnd : fields.find? (fun kv => kv.1 = segKey s) with
        | none => rw [hfnd] at hji; exact absurd hji (by simp)
        | some kv0 =>
          rw [hfnd] at hji
          obtain ⟨k0, y0⟩ := kv0
          have hk0 : k0 = segKey s := by
            have hp := List.find?_some hfnd
            simp at hp
            exact hp
          have hy0 : y0 = y := by
            have h2 : some y0 = some y := hji
            injection h2
          subst hk0
          rw [hy0] at hfnd
          have hchild := ih y (jsIndexOpt b (Seg.str (segKey s))) w h hi he
          have hcne : isEmptyObj (pruneEmptyObjects y (jsIndexOpt b (Seg.str (segKey s)))) = false :=
            isEmptyObj_false_of_go _ rest w hchild he
          have hfk := pruneFields_find_kept fields b (segKey s) y hfnd hcne
          have hpr : pruneEmptyObjects (Json.obj fields) b = Json.obj (pruneFields fields b) := rfl
          rw [hpr]
          simp only [getValueAtPointer.go, jsIndex_obj, hfk, Option.map_some']
          exact hchild
      | arr xs =>
        cases s with
        | str k =>
          rw [jsIndex_arr_str] at hji
          exact absurd hji (by simp)
        | idx n =>
          have hget : xs.get? n = some y := hji
          have hchild := ih y (jsIndexOpt b (Seg.idx n)) w h hi he
          have hpr : pruneEmptyObjects (Json.arr xs) b = Json.arr (pruneList xs b 0) := rfl
          rw [hpr]
          have hpg : jsIndex (Json.arr (pruneList xs b 0)) (Seg.idx n) =
              some (pruneEmptyObjects y (jsIndexOpt b (Seg.idx n))) := by
            have h0 : jsIndex (Json.arr (pruneList xs b 0)) (Seg.idx n) =
                (pruneList xs b 0).get? n := rfl
            rw [h0, pruneList_get xs b 0 n, hget, Nat.zero_add]
            rfl
          simp only [getValueAtPointer.go, hpg]
          exact hchild
      | null => rw [jsIndex_null] at hji; exact absurd hji (by simp)
      | bool b0 => rw [jsIndex_bool] at hji; exact absurd hji (by simp)
      | num q => rw [jsIndex_num] at hji; exact absurd hji (by simp)
      | str t => rw [jsIndex_str] at hji; exact absurd hji (by simp)

/-- C3 (amended): a dirty collection pointer `P` whose collection
computation signals invalid is withheld by `buildUpdatedJson`: the rebuilt
document's content at `P` equals the (truthy) Base Snapshot's content there
— even while every other dirty leaf (shadowed by a dirty collection or at a
path independent of `P`) and every other dirty collection (at a path
independent of `P`) IS applied — provided the base content at `P` is
non-empty and binds no empty object in any object field, so the final
empty-object prune pass cannot rewrite it (see the counterexample for the
empty-object carve-out). -/
theorem C3_invalid_collection_withheld (fs : FormState) (base : Json) (P : String)
    (dirtyPaths dcp : List String) (u w : Json)
    (htruthy : jsFalsy base = false)
    (hbase : getValueAtPointer base P = some w)
    (hinert : pruneInert w = true)
    (hne : isEmptyObj w = false)
    (hinv : collectCollectionValue fs P = CRes.invalid)
    (hleaves : ∀ p ∈ dirtyPaths, isUnderDirtyCollection dcp p = true ∨
      pathsIndependent (parsePointer p) (parsePointer P) = true)
    (hcols : ∀ c ∈ dcp, c = P ∨
      pathsIndependent (parsePointer c) (parsePointer P) = true)
    (hbuild : buildUpdatedJson fs base dirtyPaths dcp = some u) :
    getValueAtPointer u P = some w ∧ getValueAtPointer u P = getValueAtPointer base P := by
  have hclone : cloneJson (if jsFalsy base then Json.obj [] else base) = base := by
    rw [if_neg (by simp [htruthy])]
    cases base with
    | null => simp [jsFalsy] at htruthy
    | bool b0 => rfl
    | num q => rfl
    | str s => rfl
    | arr xs => rfl
    | obj fields => rfl
  simp only [buildUpdatedJson, hclone] at hbuild
  cases h1 : applyDirtyLeaves fs dcp dirtyPaths base with
  | none => simp only [h1] at hbuild; exact absurd hbuild (by simp)
  | some u1 =>
    simp only [h1] at hbuild
    cases h2 : applyDirtyCollections fs dcp u1 with
    | none => simp only [h2] at hbuild; exact absurd hbuild (by simp)
    | some u2 =>
      simp only [h2] at hbuild
      injection hbuild with hu
      have hg1 : getValueAtPointer.go u1 (parsePointer P) =
          getValueAtPointer.go base (parsePointer P) :=
        applyDirtyLeaves_preserveAt fs dcp P dirtyPaths base u1 hleaves h1
      have hg2 : getValueAtPointer.go u2 (parsePointer P) =
          getValueAtPointer.go u1 (parsePointer P) :=
        applyDirtyCollections_preserveAt fs P hinv dcp u1 u2 hcols h2
      have hgb : getValueAtPointer.go base (parsePointer P) = some w := hbase
      have hu2P : getValueAtPointer.go u2 (parsePointer P) = some w := by
        rw [hg2, hg1, hgb]
      have hfinal := prune_getAt_some (parsePointer P) u2 (some base) w hu2P hinert hne
      have hup : getValueAtPointer u P = some w := by
        have hgo : getValueAtPointer.go u (parsePointer P) = some w := by
          rw [← hu]
          exact hfinal
        exact hgo
      exact ⟨hup, by rw [hup, hbase]⟩

theorem C3_invalid_collection_withheld_witness :
    getValueAtPointer
        (Json.obj [("m", Json.obj [("k", Json.str "v")]), ("other", Json.str "y")]) "/m" =
      some (Json.obj [("k", Json.str "v")]) ∧
    getValueAtPointer
        (Json.obj [("m", Json.obj [("k", Json.str "v")]), ("other", Json.str "y")]) "/m" =
      getValueAtPointer
        (Json.obj [("m", Json.obj [("k", Json.str "v")]), ("other", Json.str "x")]) "/m" :=
  C3_invalid_collection_withheld fsMapA1Edit
    (Json.obj [("m", Json.obj [("k", Json.str "v")]), ("other", Json.str "x")]) "/m"
    ["/other"] ["/m"]
    (Json.obj [("m", Json.obj [("k", Json.str "v")]), ("other", Json.str "y")])
    (Json.obj [("k", Json.str "v")])
    (by decide) (by decide) (by decide) (by decide) (by decide)
    (by decide) (by decide) (by decide)


/-- C3 counterexample: the claim's own instance with prior content
`\x7b\x7d` at the map pointer — the key pattern `^[a-z]+$` rejects the
typed key "A1", the collection is withheld, yet the rebuilt document's
value at `/m` is `none` while the Base Snapshot's is the empty object: the
final prune pass deleted the key, so the content at the pointer is NOT
"exactly equal to the Base Snapshot's content there". -/
theorem C3_invalid_collection_withheld_counterexample :
    collectCollectionValue fsMapA1 "/m" = .invalid ∧
    buildUpdatedJson fsMapA1 (.obj [("m", .obj [])]) [] ["/m"] = some (.obj []) ∧
    getValueAtPointer (.obj []) "/m" = none ∧
    getValueAtPointer (.obj [("m", .obj [])]) "/m" = some (.obj []) := by
  refine ⟨by decide, by decide, by decide, by decide⟩

theorem pruneFields_find_none (k : String) :
    ∀ (fields : List (String × Json)) (base : Option Json),
      fields.find? (fun kv => kv.1 = k) = none →
      (pruneFields fields base).find? (fun kv => kv.1 = k) = none := by
  intro fields
  induction fields with
  | nil => intro base _; rfl
  | cons kv rest ih =>
    intro base h
    obtain ⟨k0, v0⟩ := kv
    rw [List.find?_cons] at h
    by_cases hk : k0 = k
    · simp [hk] at h
    · have hdk : (decide (k0 = k)) = false := by simp [hk]
      rw [hdk] at h
      simp only [pruneFields]
      split
      · exact ih base h
      · rw [List.find?_cons, hdk]
        exact ih base h

/-- C4 (amended): after the overlay, the prune pass deletes a key exactly
when its recursively-pruned value is an empty object AND the Base
Snapshot's entry at that key is undefined, an empty object or an empty
array; every surviving key holds its recursively-pruned value.  So an
object that became empty through deletions of base content is KEPT (its
base entry is non-empty), while a key already bound to an empty object in
the base — or absent from it — is removed: the opposite of the claim's two
test cases (see the counterexample). -/
theorem C4_prune_exact :
    ∀ (fields : List (String × Json)) (base : Option Json) (k : String),
      (fields.map Prod.fst).Nodup →
      jsIndex (pruneEmptyObjects (.obj fields) base) (.str k) =
        (match jsIndex (.obj fields) (.str k) with
         | none => none
         | some v =>
           if isEmptyObj (pruneEmptyObjects v (jsIndexOpt base (.str k))) &&
               pruneDrops (jsIndexOpt base (.str k)) then none
           else some (pruneEmptyObjects v (jsIndexOpt base (.str k)))) := by
  intro fields
  induction fields with
  | nil => intro base k _; rfl
  | cons kv rest ih =>
    intro base k hnd
    obtain ⟨k0, v0⟩ := kv
    rw [List.map_cons, List.nodup_cons] at hnd
    obtain ⟨hk0, hndr⟩ := hnd
    have hobj : ∀ (l : List (String × Json)),
        pruneEmptyObjects (.obj l) base = .obj (pruneFields l base) := by
      intro l
      simp [pruneEmptyObjects]
    by_cases hk : k0 = k
    · subst hk
      have hsv : jsIndex (.obj ((k0, v0) :: rest)) (.str k0) = some v0 := by
        simp [jsIndex, List.find?_cons]
      have hrest : rest.find? (fun kv => kv.1 = k0) = none := by
        rw [List.find?_eq_none]
        intro x hx
        simp only [decide_eq_true_eq]
        intro hx1
        have hmem : x.1 ∈ rest.map Prod.fst := List.mem_map_of_mem Prod.fst hx
        rw [hx1] at hmem
        exact hk0 hmem
      rw [hobj, hsv]
      cases hcond : (isEmptyObj (pruneEmptyObjects v0 (jsIndexOpt base (.str k0))) &&
          pruneDrops (jsIndexOpt base (.str k0))) with
      | true =>
        have hl : pruneFields ((k0, v0) :: rest) base = pruneFields rest base := by
          simp [pruneFields, hcond]
        rw [hl]
        have hL : jsIndex (.obj (pruneFields rest base)) (.str k0) = none := by
          simp only [jsIndex]
          rw [pruneFields_find_none k0 rest base hrest]
          rfl
        rw [hL]
        simp [hcond]
      | false =>
        have hl : pruneFields ((k0, v0) :: rest) base =
            (k0, pruneEmptyObjects v0 (jsIndexOpt base (.str k0))) :: pruneFields rest base := by
          simp [pruneFields, hcond]
        rw [hl]
        have hL : jsIndex
            (.obj ((k0, pruneEmptyObjects v0 (jsIndexOpt base (.str k0))) ::
              pruneFields rest base)) (.str k0) =
            some (pruneEmptyObjects v0 (jsIndexOpt base (.str k0))) := by
          simp [jsIndex, List.find?_cons]
        rw [hL]
        simp [hcond]
    · have hdk : (decide (k0 = k)) = false := by simp [hk]
      have hskip : jsIndex (.obj ((k0, v0) :: rest)) (.str k) = jsIndex (.obj rest) (.str k) := by
        simp only [jsIndex, List.find?_cons, hdk]
      rw [hobj, hskip]
      have ihr := ih base k hndr
      rw [hobj] at ihr
      cases hcond : (isEmptyObj (pruneEmptyObjects v0 (jsIndexOpt base (.str k0))) &&
          pruneDrops (jsIndexOpt base (.str k0))) with
      | true =>
        have hl : pruneFields ((k0, v0) :: rest) base = pruneFields rest base := by
          simp [pruneFields, hcond]
        rw [hl]
        exact ihr
      | false =>
        have hl : pruneFields ((k0, v0) :: rest) base =
            (k0, pruneEmptyObjects v0 (jsIndexOpt base (.str k0))) :: pruneFields rest base := by
          simp [pruneFields, hcond]
        rw [hl]
        have hskip2 : jsIndex
            (.obj ((k0, pruneEmptyObjects v0 (jsIndexOpt base (.str k0))) ::
              pruneFields rest base)) (.str k) =
            jsIndex (.obj (pruneFields rest base)) (.str k) := by
          simp only [jsIndex, List.find?_cons, hdk]
        rw [hskip2]
        exact ihr

/-- C4 witness: with base `\x7b"a":\x7b"x":1\x7d,"b":\x7b\x7d\x7d`, key "a"
of the pruned overlay `\x7b"a":\x7b\x7d,"b":\x7b\x7d\x7d` survives (its
base entry is non-empty), per the characterization. -/
theorem C4_prune_exact_witness :
    jsIndex (pruneEmptyObjects (.obj [("a", .obj []), ("b", .obj [])])
        (some (.obj [("a", .obj [("x", .num 1)]), ("b", .obj [])]))) (.str "a") =
      some (.obj []) := by
  have h := C4_prune_exact [("a", .obj []), ("b", .obj [])]
      (some (.obj [("a", .obj [("x", .num 1)]), ("b", .obj [])])) "a" (by decide)
  rw [h]
  decide

/-- C4 counterexample: the base has a non-empty object at "a" and an empty
object at "b"; the user deletes `/a/x` (an unset string control).  The
claim predicts the rebuilt document drops "a" (became empty via deletion,
base non-empty) and keeps "b" (already empty in the base) — the code does
exactly the opposite: the rebuilt document is `\x7b"a":\x7b\x7d\x7d`. -/
theorem C4_prune_exact_counterexample :
    readControlValue emptyStringControl = none ∧
    buildUpdatedJson fsDeleteAX
        (.obj [("a", .obj [("x", .num 1)]), ("b", .obj [])]) ["/a/x"] [] =
      some (.obj [("a", .obj [])]) ∧
    jsIndex (.obj [("a", .obj [])]) (.str "a") = some (.obj []) ∧
    jsIndex (.obj [("a", .obj [])]) (.str "b") = none := by
  refine ⟨by decide, by decide, by decide, by decide⟩
